import Mathlib

set_option maxRecDepth 8000

/-!
Verification development for the aether-kv storage engine
(Bitcask-style append-only key-value store).

The Go sources are shallowly embedded: byte strings become `List Nat`
(each element a byte value < 256), Go machine integers become `Nat`
with explicit `% 2^32` / `% 2^64` where overflow matters, fallible
operations return `Except`, and the mutable engine state is passed
explicitly.  Wall-clock instants (`time.Now`, `lastSyncTime`) are
passed as explicit `Nat` parameters measured in seconds.
-/

namespace AetherKV

/-! ## CRC32 (IEEE), as in Go hash/crc32 with the reflected polynomial.

Embeds crc32.ChecksumIEEE: table-driven update with the reflected
polynomial 0xEDB88320, initial state 0xFFFFFFFF and final complement. -/

/-! ## Little-endian integer encoding (binary.LittleEndian) -/

/-! ## Record codec (internal/format, part_007 revision)

Embeds format.Record, Record.Encode and format.Decode.  The engine
always calls them with HEADER_SIZE = 21; Encode writes the fixed
fields at offsets 4, 12, 16, 20 and pads bytes 21..headerSize with
zeros (Go: a fresh buffer is zero-initialised), so the embedding is
faithful for every headerSize ≥ 21 (for headerSize < 21 the Go code
panics on an out-of-range index, a case no claim exercises). -/

/-! ## Storage layer (internal/storage File) -/

/-! ## Engine (internal/engine KVEngine) -/

/-! ## Recovery (engine.RecoverKeyDir, scanLogFile, readNextRecord) -/

/-! ## Engine operation sequences (for the Put/Get functional claims) -/

/-- Byte strings: lists of byte values (each < 256 where wellformed). -/
abbrev Bytes := List Nat

/-- The reflected CRC32 (IEEE) polynomial used by Go hash/crc32. -/
def crcPoly : Nat := 0xEDB88320

/-- One bit step of the table generator: shift right, conditionally xor the polynomial. -/
def crcStep8 (c : Nat) : Nat :=
  if c % 2 = 1 then (c / 2) ^^^ crcPoly else c / 2

/-- Entry i of the CRC32 lookup table (eight generator steps on i), as built
by crc32.simpleMakeTable. -/
def crcTable (i : Nat) : Nat :=
  crcStep8 (crcStep8 (crcStep8 (crcStep8 (crcStep8 (crcStep8 (crcStep8 (crcStep8 i)))))))

/-- One byte of the running CRC update: crc = tab[byte(crc)^b] ^ (crc>>8). -/
def crcUpdate (c b : Nat) : Nat :=
  (c / 256) ^^^ crcTable ((c ^^^ b) % 256)

/-- Fold the byte-at-a-time update over a byte string. -/
def crcList (c : Nat) (l : Bytes) : Nat := l.foldl crcUpdate c

/-- crc32.ChecksumIEEE: initial state 0xFFFFFFFF, update over the data, final complement. -/
def checksumIEEE (l : Bytes) : Nat := crcList 0xFFFFFFFF l ^^^ 0xFFFFFFFF

/-- The 256 CRC32 table entries, spelled out so that facts about the
table (distinctness, bounds) are cheap to check by evaluation. -/
def crcTableLit : List Nat := [
  0, 1996959894, 3993919788, 2567524794, 124634137, 1886057615, 3915621685, 2657392035,
  249268274, 2044508324, 3772115230, 2547177864, 162941995, 2125561021, 3887607047, 2428444049,
  498536548, 1789927666, 4089016648, 2227061214, 450548861, 1843258603, 4107580753, 2211677639,
  325883990, 1684777152, 4251122042, 2321926636, 335633487, 1661365465, 4195302755, 2366115317,
  997073096, 1281953886, 3579855332, 2724688242, 1006888145, 1258607687, 3524101629, 2768942443,
  901097722, 1119000684, 3686517206, 2898065728, 853044451, 1172266101, 3705015759, 2882616665,
  651767980, 1373503546, 3369554304, 3218104598, 565507253, 1454621731, 3485111705, 3099436303,
  671266974, 1594198024, 3322730930, 2970347812, 795835527, 1483230225, 3244367275, 3060149565,
  1994146192, 31158534, 2563907772, 4023717930, 1907459465, 112637215, 2680153253, 3904427059,
  2013776290, 251722036, 2517215374, 3775830040, 2137656763, 141376813, 2439277719, 3865271297,
  1802195444, 476864866, 2238001368, 4066508878, 1812370925, 453092731, 2181625025, 4111451223,
  1706088902, 314042704, 2344532202, 4240017532, 1658658271, 366619977, 2362670323, 4224994405,
  1303535960, 984961486, 2747007092, 3569037538, 1256170817, 1037604311, 2765210733, 3554079995,
  1131014506, 879679996, 2909243462, 3663771856, 1141124467, 855842277, 2852801631, 3708648649,
  1342533948, 654459306, 3188396048, 3373015174, 1466479909, 544179635, 3110523913, 3462522015,
  1591671054, 702138776, 2966460450, 3352799412, 1504918807, 783551873, 3082640443, 3233442989,
  3988292384, 2596254646, 62317068, 1957810842, 3939845945, 2647816111, 81470997, 1943803523,
  3814918930, 2489596804, 225274430, 2053790376, 3826175755, 2466906013, 167816743, 2097651377,
  4027552580, 2265490386, 503444072, 1762050814, 4150417245, 2154129355, 426522225, 1852507879,
  4275313526, 2312317920, 282753626, 1742555852, 4189708143, 2394877945, 397917763, 1622183637,
  3604390888, 2714866558, 953729732, 1340076626, 3518719985, 2797360999, 1068828381, 1219638859,
  3624741850, 2936675148, 906185462, 1090812512, 3747672003, 2825379669, 829329135, 1181335161,
  3412177804, 3160834842, 628085408, 1382605366, 3423369109, 3138078467, 570562233, 1426400815,
  3317316542, 2998733608, 733239954, 1555261956, 3268935591, 3050360625, 752459403, 1541320221,
  2607071920, 3965973030, 1969922972, 40735498, 2617837225, 3943577151, 1913087877, 83908371,
  2512341634, 3803740692, 2075208622, 213261112, 2463272603, 3855990285, 2094854071, 198958881,
  2262029012, 4057260610, 1759359992, 534414190, 2176718541, 4139329115, 1873836001, 414664567,
  2282248934, 4279200368, 1711684554, 285281116, 2405801727, 4167216745, 1634467795, 376229701,
  2685067896, 3608007406, 1308918612, 956543938, 2808555105, 3495958263, 1231636301, 1047427035,
  2932959818, 3654703836, 1088359270, 936918000, 2847714899, 3736837829, 1202900863, 817233897,
  3183342108, 3401237130, 1404277552, 615818150, 3134207493, 3453421203, 1423857449, 601450431,
  3009837614, 3294710456, 1567103746, 711928724, 3020668471, 3272380065, 1510334235, 755167117]

/-- binary.LittleEndian.PutUint32: four bytes, least significant first. -/
def le32 (n : Nat) : Bytes := [n % 256, n / 256 % 256, n / 256 ^ 2 % 256, n / 256 ^ 3 % 256]

/-- binary.LittleEndian.PutUint64: eight bytes, least significant first. -/
def le64 (n : Nat) : Bytes :=
  [n % 256, n / 256 % 256, n / 256 ^ 2 % 256, n / 256 ^ 3 % 256,
   n / 256 ^ 4 % 256, n / 256 ^ 5 % 256, n / 256 ^ 6 % 256, n / 256 ^ 7 % 256]

/-- binary.LittleEndian.Uint32 read at a byte offset. -/
def readLE32 (l : Bytes) (off : Nat) : Nat :=
  l.getD off 0 + 256 * l.getD (off + 1) 0 + 256 ^ 2 * l.getD (off + 2) 0 +
    256 ^ 3 * l.getD (off + 3) 0

/-- binary.LittleEndian.Uint64 read at a byte offset. -/
def readLE64 (l : Bytes) (off : Nat) : Nat :=
  l.getD off 0 + 256 * l.getD (off + 1) 0 + 256 ^ 2 * l.getD (off + 2) 0 +
    256 ^ 3 * l.getD (off + 3) 0 + 256 ^ 4 * l.getD (off + 4) 0 + 256 ^ 5 * l.getD (off + 5) 0 +
    256 ^ 6 * l.getD (off + 6) 0 + 256 ^ 7 * l.getD (off + 7) 0

/-- Record flag constants (format.FlagNormal / format.FlagTombstone).
FlagNormal = 0, FlagTombstone = 1 as in the format package. -/
def FlagNormal : Nat := 0

/-- format.FlagTombstone = 1. -/
def FlagTombstone : Nat := 1

/-- Modelled from the spec: the constant format.FlagCommit is referenced by
the engine but the revision of the format package defining it is not among
the sources; the spec fixes the flag values as Normal=0, Tombstone=1, Commit=2. -/
def FlagCommit : Nat := 2

/-- format.Record. CRC, Timestamp, Keysize, Valuesize are uint32/uint64
fields (kept as Nat, with wellformedness bounds in RecordWF); Flag is a
uint8; Key and Value are byte slices. -/
structure Record where
  crc : Nat
  timestamp : Nat
  keysize : Nat
  valuesize : Nat
  flag : Nat
  key : Bytes
  value : Bytes
deriving Repr, DecidableEq

/-- The bounds the Go field types impose on a record. -/
def RecordWF (r : Record) : Prop :=
  r.timestamp < 2 ^ 64 ∧ r.keysize < 2 ^ 32 ∧ r.valuesize < 2 ^ 32 ∧ r.flag < 256 ∧
    (∀ b ∈ r.key, b < 256) ∧ (∀ b ∈ r.value, b < 256)

instance (r : Record) : Decidable (RecordWF r) := by
  unfold RecordWF
  infer_instance

/-- Bytes 4.. of an encoded record: timestamp, key length, value length,
flag, zero padding up to headerSize, then key and value bytes. -/
def recordBody (hs : Nat) (r : Record) : Bytes :=
  le64 r.timestamp ++ le32 r.keysize ++ le32 r.valuesize ++ [r.flag % 256] ++
    List.replicate (hs - 21) 0 ++ r.key ++ r.value

/-- Record.Encode(headerSize): header fields at fixed offsets, key then
value, CRC32 over bytes[4:] of the full buffer written into bytes[0:4). -/
def encode (hs : Nat) (r : Record) : Bytes :=
  le32 (checksumIEEE (recordBody hs r)) ++ recordBody hs r

/-- The three failure modes of format.Decode (spec taxonomy: ShortHeader,
ShortBody, ChecksumMismatch). -/
inductive DecodeErr where
  | shortHeader
  | shortBody
  | checksumMismatch
deriving Repr, DecidableEq

/-- format.Decode(data, headerSize): length checks, little-endian field
extraction at fixed offsets, CRC32 recomputed over data[4:] (the whole
remaining buffer) and compared with the stored checksum. -/
def decode (hs : Nat) (data : Bytes) : Except DecodeErr Record :=
  if data.length < hs then .error .shortHeader
  else
    let crc := readLE32 data 0
    let ts := readLE64 data 4
    let ks := readLE32 data 12
    let vs := readLE32 data 16
    let flag := data.getD 20 0
    if data.length < hs + ks + vs then .error .shortBody
    else if checksumIEEE (data.drop 4) ≠ crc then .error .checksumMismatch
    else .ok ⟨crc, ts, ks, vs, flag, (data.drop hs).take ks, (data.drop (hs + ks)).take vs⟩

/-- Decidable equality for decode results, so concrete decode outcomes can be
checked by evaluation. -/
instance {e a : Type} [DecidableEq e] [DecidableEq a] : DecidableEq (Except e a) := fun x y =>
  match x, y with
  | .error u, .error v => decidable_of_iff (u = v) (by simp)
  | .ok u, .ok v => decidable_of_iff (u = v) (by simp)
  | .error _, .ok _ => isFalse (fun hc => Except.noConfusion hc)
  | .ok _, .error _ => isFalse (fun hc => Except.noConfusion hc)

/-- A concrete record used as evaluation input (key "key", value "value"). -/
def sampleRec : Record :=
  ⟨0, 1234567890, 3, 5, 0, [107, 101, 121], [118, 97, 108, 117, 101]⟩

/-- config.Config: the fields the engine and storage consume (DATA_DIR only
names the file on disk and plays no role in the embedded semantics).
HEADER_SIZE, BATCH_SIZE, SYNC_INTERVAL are uint32 values. -/
structure Config where
  headerSize : Nat
  batchSize : Nat
  syncInterval : Nat
deriving Repr, DecidableEq

/-- bufio.defaultBufSize: capacity of the writer created by bufio.NewWriter. -/
def defaultBufSize : Nat := 4096

/-- storage.File: the OS file contents (flushed bytes), the bufio.Writer
contents and capacity, and lastSyncTime (seconds). -/
structure FileState where
  disk : Bytes
  buf : Bytes
  bufCap : Nat
  lastSync : Nat
deriving Repr, DecidableEq

/-- storage.NewFile on an existing log: empty write buffer of the default
capacity, lastSyncTime = now. -/
def newFile (now : Nat) (disk : Bytes) : FileState :=
  ⟨disk, [], defaultBufSize, now⟩

/-- bufio.Writer.Write, fuel-indexed for structural recursion (the fuel
strictly exceeds the loop measure, so the zero-fuel fallback is never hit;
it is chosen join-preserving regardless): while the data exceeds the free
space, either write directly to the file (large write, empty buffer) or fill
the buffer and flush it; the remainder stays buffered.  Returns the pair
(file contents, buffer contents). -/
def bufWriteAux (cap : Nat) : Nat → Bytes → Bytes → Bytes → Bytes × Bytes
  | 0, disk, buf, p => (disk, buf ++ p)
  | fuel + 1, disk, buf, p =>
      if p.length ≤ cap - buf.length then (disk, buf ++ p)
      else if buf.length = 0 then (disk ++ p, [])
      else bufWriteAux cap fuel (disk ++ (buf ++ p.take (cap - buf.length))) []
        (p.drop (cap - buf.length))

/-- bufio.Writer.Write with enough fuel for its loop to run to completion. -/
def bufWrite (cap : Nat) (disk buf p : Bytes) : Bytes × Bytes :=
  bufWriteAux cap (p.length + buf.length + 1) disk buf p

/-- storage.File.flushAndSync: buffer flushed into the file, sync, timer reset. -/
def flushAndSync (now : Nat) (fs : FileState) : FileState :=
  ⟨fs.disk ++ fs.buf, [], fs.bufCap, now⟩

/-- storage.File.Append.  The offset is the file size plus the buffered byte
count, computed before writing; after the buffered write, the auto-flush
fires when buffer.Size() (the CAPACITY, as the code is written) is at least
BATCH_SIZE or the time since the last sync is at least SYNC_INTERVAL seconds.
osOk models whether the underlying OS calls succeed; on failure Append
returns an error before the engine touches its directory. -/
def fileAppend (cfg : Config) (now : Nat) (osOk : Bool) (data : Bytes) (fs : FileState) :
    Except Unit (Nat × FileState) :=
  if !osOk then .error ()
  else
    let offset := fs.disk.length + fs.buf.length
    let db := bufWrite fs.bufCap fs.disk fs.buf data
    let fs2 : FileState := ⟨db.1, db.2, fs.bufCap, fs.lastSync⟩
    if cfg.batchSize ≤ fs.bufCap ∨ cfg.syncInterval ≤ now - fs.lastSync then
      .ok (offset, flushAndSync now fs2)
    else
      .ok (offset, fs2)

/-- storage.File.ShouldFlushBeforeRead: true iff the offset lies in the
unflushed region [fileSize, fileSize + buffered). -/
def shouldFlushBeforeRead (fs : FileState) (offset : Nat) : Bool :=
  decide (fs.disk.length ≤ offset ∧ offset < fs.disk.length + fs.buf.length)

/-- storage.File.ReadAt: reads size bytes from the OS file at the given
int64 offset, bypassing the write buffer.  os.File.ReadAt on a regular file
fills as many bytes as exist and reports io.EOF when fewer than size remain;
the method treats io.EOF as success and returns the full zero-initialised
size-byte slice.  A negative offset is an OS error other than io.EOF and is
propagated. -/
def fileReadAt (fs : FileState) (offset : Int) (size : Nat) : Except Unit Bytes :=
  if offset < 0 then .error ()
  else
    let readBytes := (fs.disk.drop offset.toNat).take size
    .ok (readBytes ++ List.replicate (size - readBytes.length) 0)

/-- Modelled from the spec (§4.2 auto-flush policy), for comparison with
the code: flush after an append iff the buffered byte count is at least
batch-size or the time since the last flush is at least sync-interval. -/
def specFlushCondition (cfg : Config) (now bufferedAfter lastSync : Nat) : Bool :=
  (cfg.batchSize ≤ bufferedAfter || cfg.syncInterval ≤ now - lastSync)

/-- The concrete configuration of the repository's own tests:
HEADER_SIZE 21, BATCH_SIZE 4096, SYNC_INTERVAL 5. -/
def testCfg : Config := ⟨21, 4096, 5⟩

/-- The bytes of "test data". -/
def testData9 : Bytes := [116, 101, 115, 116, 32, 100, 97, 116, 97]

/-- engine.Key: a key-directory entry (FileId always 0, Size = header+key+value
as uint32, Offset = record start in the log). -/
structure KeyEntry where
  fileId : Nat
  size : Nat
  offset : Nat
deriving Repr, DecidableEq

/-- The key directory (sync.Map string → *Key), modelled with map semantics:
Store keeps exactly one binding per key, Load finds it, Delete removes it. -/
abbrev KeyDir := List (Bytes × KeyEntry)

/-- sync.Map.Load. -/
def kdLoad (d : KeyDir) (k : Bytes) : Option KeyEntry :=
  (d.lookup k)

/-- sync.Map.Store: exactly one binding per key afterwards. -/
def kdStore (d : KeyDir) (k : Bytes) (e : KeyEntry) : KeyDir :=
  (k, e) :: d.filter (fun p => p.1 != k)

/-- sync.Map.Delete. -/
def kdDelete (d : KeyDir) (k : Bytes) : KeyDir :=
  d.filter (fun p => p.1 != k)

/-- engine.KVEngine: the in-memory directory plus the storage file. -/
structure EngState where
  keyDir : KeyDir
  file : FileState
deriving Repr, DecidableEq

/-- The byte contents of the log as the engine sees them: flushed bytes
followed by the unflushed write-buffer tail. -/
def logOf (s : EngState) : Bytes := s.file.disk ++ s.file.buf

/-- Engine-level errors (§7 taxonomy). -/
inductive EngErr where
  | keyNotFound
  | ioFailure
  | decodeFail (e : DecodeErr)
deriving Repr, DecidableEq

/-- The Normal record engine.Put builds: current time, uint32 lengths, the
key and value bytes. -/
def putRecord (ts : Nat) (k v : Bytes) : Record :=
  ⟨0, ts, k.length % 2 ^ 32, v.length % 2 ^ 32, FlagNormal, k, v⟩

/-- The zero-length Commit record engine.Put builds. -/
def commitRecord (ts : Nat) : Record :=
  ⟨0, ts, 0, 0, FlagCommit, [], []⟩

/-- The Tombstone record engine.Delete builds (key only, no value). -/
def tombRecord (ts : Nat) (k : Bytes) : Record :=
  ⟨0, ts, k.length % 2 ^ 32, 0, FlagTombstone, k, []⟩

/-- engine.Put: encode the Normal record and the commit record, append both
in ONE Append call, then store {offset, size = Valuesize+Keysize+HEADER_SIZE}
for the key.  tsr and tsc are the two time.Now() readings (record and commit
timestamps) and now the clock at the append; on append failure the error
returns before the directory is touched. -/
def enginePut (cfg : Config) (tsr tsc now : Nat) (osOk : Bool) (k v : Bytes) (s : EngState) :
    Except EngErr Unit × EngState :=
  match fileAppend cfg now osOk
      (encode cfg.headerSize (putRecord tsr k v) ++ encode cfg.headerSize (commitRecord tsc))
      s.file with
  | .error _ => (.error .ioFailure, s)
  | .ok (offset, fs2) =>
      (.ok (), ⟨kdStore s.keyDir k
        ⟨0, (v.length % 2 ^ 32 + k.length % 2 ^ 32 + cfg.headerSize) % 2 ^ 32, offset⟩, fs2⟩)

/-- engine.Delete: append the encoded Tombstone (no commit marker), then
remove the key from the directory; on append failure the directory is kept. -/
def engineDelete (cfg : Config) (tsr now : Nat) (osOk : Bool) (k : Bytes) (s : EngState) :
    Except EngErr Unit × EngState :=
  match fileAppend cfg now osOk (encode cfg.headerSize (tombRecord tsr k)) s.file with
  | .error _ => (.error .ioFailure, s)
  | .ok (_, fs2) => (.ok (), ⟨kdDelete s.keyDir k, fs2⟩)

/-- engine.Get: directory lookup, flush-before-read when the entry's offset
lies in the unflushed region, ReadAt of exactly entry.size bytes, decode, and
the defensive tombstone check. -/
def engineGet (cfg : Config) (now : Nat) (k : Bytes) (s : EngState) :
    Except EngErr Bytes × EngState :=
  match kdLoad s.keyDir k with
  | none => (.error .keyNotFound, s)
  | some e =>
      let fs := if shouldFlushBeforeRead s.file e.offset then flushAndSync now s.file
        else s.file
      match fileReadAt fs (Int.ofNat e.offset) e.size with
      | .error _ => (.error .ioFailure, ⟨s.keyDir, fs⟩)
      | .ok data =>
          match decode cfg.headerSize data with
          | .error de => (.error (.decodeFail de), ⟨s.keyDir, fs⟩)
          | .ok r =>
              if r.flag = FlagTombstone then (.error .keyNotFound, ⟨s.keyDir, fs⟩)
              else (.ok r.value, ⟨s.keyDir, fs⟩)

/-- engine.GetKeyDirSize: number of directory entries. -/
def getKeyDirSize (s : EngState) : Nat := s.keyDir.length

/-- scanLogFile's recordWithOffsetAndSize.  When buffering a record the Go
code populates only the record and size fields; offset keeps its zero value
0 (mirrored here by every construction site passing 0). -/
structure PendingRec where
  record : Record
  offset : Nat
  size : Nat
deriving Repr, DecidableEq

/-- Outcome of engine.readNextRecord as scanLogFile distinguishes it:
io.EOF (clean stop), a hard error, or a full record with its total size. -/
inductive ReadNext where
  | eof
  | fail
  | next (r : Record) (total : Nat)
deriving Repr, DecidableEq

/-- engine.readNextRecord on the remaining byte stream: reading the header
with io.ReadFull yields io.EOF only when no bytes remain (clean stop) and
io.ErrUnexpectedEOF on a partial header, which scanLogFile treats as a hard
error; a short body is returned as io.EOF (clean stop); a fully read record
is decoded, a decode failure being a hard error. -/
def readNextRecord (hs : Nat) (bytes : Bytes) : ReadNext :=
  if bytes.length = 0 then .eof
  else if bytes.length < hs then .fail
  else
    if bytes.length < hs + readLE32 bytes 12 + readLE32 bytes 16 then .eof
    else
      match decode hs (bytes.take (hs + readLE32 bytes 12 + readLE32 bytes 16)) with
      | .error _ => .fail
      | .ok r => .next r (hs + readLE32 bytes 12 + readLE32 bytes 16)

/-- engine.processRecoveredRecord folded over a pending group at a commit
marker: a Tombstone deletes its key (not counted), any other record stores
{FileId 0, Size uint32(size), Offset p.offset} and is counted. -/
def applyGroup (pending : List PendingRec) (dir : KeyDir) (count : Nat) : KeyDir × Nat :=
  pending.foldl (fun dc p =>
    if p.record.flag = FlagTombstone then (kdDelete dc.1 p.record.key, dc.2)
    else (kdStore dc.1 p.record.key ⟨0, p.size % 2 ^ 32, p.offset⟩, dc.2 + 1))
    (dir, count)

/-- engine.scanLogFile, fuel-indexed (the fuel strictly exceeds the number
of bytes left, and every step consumes at least one byte, so the zero-fuel
fallback is never reached): read records sequentially; a Commit record
applies the pending group to the directory and clears it; any other record
joins the pending group (with offset left at 0, as in the code). -/
def scanAux (hs : Nat) : Nat → Bytes → Nat → List PendingRec → KeyDir → Nat →
    Except Unit (KeyDir × Nat)
  | 0, _, _, _, dir, count => .ok (dir, count)
  | fuel + 1, bytes, off, pending, dir, count =>
      match readNextRecord hs bytes with
      | .eof => .ok (dir, count)
      | .fail => .error ()
      | .next r total =>
          if r.flag = FlagCommit then
            scanAux hs fuel (bytes.drop total) (off + total) []
              (applyGroup pending dir count).1 (applyGroup pending dir count).2
          else
            scanAux hs fuel (bytes.drop total) (off + total)
              (pending ++ [⟨r, 0, total⟩]) dir count

/-- engine.scanLogFile from offset 0 with empty pending group and directory
(the state NewKVEngine recovers into). -/
def scanLog (hs : Nat) (bytes : Bytes) : Except Unit (KeyDir × Nat) :=
  scanAux hs (bytes.length + 1) bytes 0 [] [] 0

/-- engine.NewKVEngine's recovery step: open the file and rebuild the
directory by scanning the on-disk bytes; a scan error aborts startup. -/
def engineOpen (cfg : Config) (now : Nat) (disk : Bytes) : Except Unit EngState :=
  match scanLog cfg.headerSize disk with
  | .error _ => .error ()
  | .ok (dir, _) => .ok ⟨dir, newFile now disk⟩

/-- A byte string that is exactly one decodable record (its declared total
size equals its length). -/
def WFChunk (hs : Nat) (c : Bytes) : Prop :=
  hs ≤ c.length ∧ c.length = hs + readLE32 c 12 + readLE32 c 16 ∧
    (decode hs c).isOk = true

instance (hs : Nat) (c : Bytes) : Decidable (WFChunk hs c) := by
  unfold WFChunk
  infer_instance

/-- One chunk's effect on the (pending, directory, count) scanning state. -/
def chunkStep (c : Bytes) (st : List PendingRec × KeyDir × Nat) :
    List PendingRec × KeyDir × Nat :=
  match decode 21 c with
  | .error _ => st
  | .ok r =>
      if r.flag = FlagCommit then
        ([], (applyGroup st.1 st.2.1 st.2.2).1, (applyGroup st.1 st.2.1 st.2.2).2)
      else
        (st.1 ++ [⟨r, 0, c.length⟩], st.2.1, st.2.2)

/-- The scanning state after a list of chunks. -/
def replayChunks (chunks : List Bytes) (st : List PendingRec × KeyDir × Nat) :
    List PendingRec × KeyDir × Nat :=
  chunks.foldl (fun st c => chunkStep c st) st

/-- One decodable Normal chunk: the record for key "a", value "1". -/
def c3Chunk1 : Bytes := encode 21 (putRecord 0 [97] [49])

/-- One decodable Commit chunk. -/
def c3Chunk2 : Bytes := encode 21 (commitRecord 0)

/-- A torn tail: the first 22 bytes of a record whose declared body needs 23. -/
def c3Tail : Bytes := (encode 21 (putRecord 0 [97] [49])).take 22

/-- The engine state after Put("a","1") on an empty engine (test config). -/
def c1State1 : EngState := (enginePut testCfg 0 0 0 true [97] [49] ⟨[], newFile 0 []⟩).2

/-- The log bytes after Put("a","1"); Put("b","22"): two committed records of
different sizes, fully flushed. -/
def c1Log : Bytes := logOf (enginePut testCfg 0 0 0 true [98] [50, 50] c1State1).2

/-- The directory scanLogFile actually rebuilds from c1Log: both entries carry
Offset 0 because scanLogFile never sets the offset field it buffers. -/
def c1Dir : KeyDir := [([98], ⟨0, 24, 0⟩), ([97], ⟨0, 23, 0⟩)]

/-- Number of bindings a key has in the directory. -/
def countKey (d : KeyDir) (k : Bytes) : Nat :=
  (d.filter (fun p => p.1 == k)).length

/-- A mutating engine call: Put or Delete (the single Nat stands for the
time.Now() readings the call makes, all within the same second). -/
inductive Op where
  | put (k v : Bytes) (t : Nat)
  | del (k : Bytes) (t : Nat)
deriving Repr, DecidableEq

/-- The Go-type bounds on a Put's inputs (byte-string contents, uint32 sizes,
uint64 timestamp); Deletes need no side conditions for the claims proved. -/
def ValidOp : Op → Prop
  | .put k v t => k.length < 2 ^ 32 ∧ v.length < 2 ^ 32 ∧
      21 + k.length + v.length < 2 ^ 32 ∧ t < 2 ^ 64 ∧
      (∀ b ∈ k, b < 256) ∧ (∀ b ∈ v, b < 256)
  | .del _ _ => True

instance (op : Op) : Decidable (ValidOp op) := by
  cases op <;> (unfold ValidOp; infer_instance)

/-- Run one successful engine call. -/
def execOp (cfg : Config) (s : EngState) : Op → EngState
  | .put k v t => (enginePut cfg t t t true k v s).2
  | .del k t => (engineDelete cfg t t true k s).2

/-- Run a sequence of successful engine calls. -/
def exec (cfg : Config) (s : EngState) (ops : List Op) : EngState :=
  ops.foldl (execOp cfg) s

/-- A freshly created engine over an empty log. -/
def initState : EngState := ⟨[], newFile 0 []⟩

/-- The value the sequence of operations leaves behind for key k: the value
of the last Put to k, unless a later Delete removed it. -/
def specLookup (ops : List Op) (k : Bytes) : Option Bytes :=
  ops.foldl (fun acc op => match op with
    | .put k2 v _ => if k2 = k then some v else acc
    | .del k2 _ => if k2 = k then none else acc) none

/-- The directory entry for key k points to a wellformed encoded Normal
record for k with value v, lying wholly inside the flushed log. -/
def GoodEntry (disk : Bytes) (k : Bytes) (e : KeyEntry) (v : Bytes) : Prop :=
  ∃ r : Record, RecordWF r ∧ r.flag = FlagNormal ∧ r.key = k ∧ r.value = v ∧
    r.keysize = k.length ∧ r.valuesize = v.length ∧
    e.size = 21 + k.length + v.length ∧
    e.offset + e.size ≤ disk.length ∧
    (disk.drop e.offset).take e.size = encode 21 r

/-- The refinement invariant between the engine state and the abstract map,
for configurations whose BATCH_SIZE is at most the writer capacity (then
every Append auto-flushes, so the write buffer is empty between calls). -/
def Inv (cfg : Config) (s : EngState) (m : Bytes → Option Bytes) : Prop :=
  s.file.buf = [] ∧ cfg.batchSize ≤ s.file.bufCap ∧
  (∀ k, m k = none → kdLoad s.keyDir k = none) ∧
  (∀ k v, m k = some v → ∃ e, kdLoad s.keyDir k = some e ∧ GoodEntry s.file.disk k e v) ∧
  (∀ k, countKey s.keyDir k = if (m k).isSome then 1 else 0)

/-- A configuration with BATCH_SIZE larger than the 4096-byte writer
capacity and a long sync interval: no append auto-flushes. -/
def c8Cfg : Config := ⟨21, 8192, 10⟩

/-- A 4050-byte value: its Put leaves 4093 bytes in the 4096-byte buffer. -/
def c8V1 : Bytes := List.replicate 4050 97

/-- The second, small value Put for the same key. -/
def c8V2 : Bytes := [1, 2, 3, 4, 5, 6, 7, 8, 9, 10]

/-- The engine after Put(k, c8V1); Put(k, c8V2) with c8Cfg: the second Put's
record straddles the flush boundary bufio forces when the buffer fills. -/
def c8S2 : EngState :=
  (enginePut c8Cfg 0 0 0 true [107] c8V2
    (enginePut c8Cfg 0 0 0 true [107] c8V1 ⟨[], newFile 0 []⟩).2).2

theorem crcTableLit_eq : (List.range 256).map crcTable = crcTableLit := by decide

theorem crcTableLit_nodup : crcTableLit.Nodup := by decide

theorem crcTableLit_hi_nodup : (crcTableLit.map (fun x => x / 2^24)).Nodup := by decide

theorem crcTableLit_lt : crcTableLit.all (fun x => x < 2^32) = true := by decide

theorem crcTable_eq_lit (i : Nat) (hi : i < 256) : crcTable i = crcTableLit.get ⟨i, by
    have h := congrArg List.length crcTableLit_eq
    simp at h
    omega⟩ := by
  have h := crcTableLit_eq
  have h2 : ((List.range 256).map crcTable).get ⟨i, by simp [hi]⟩ =
      crcTableLit.get ⟨i, by have h := congrArg List.length crcTableLit_eq; simp at h; omega⟩ := by
    congr 1
  simpa using h2

theorem crcTableLit_length : crcTableLit.length = 256 := by
  have h := congrArg List.length crcTableLit_eq
  simpa using h.symm

theorem crcTable_lt (i : Nat) (hi : i < 256) : crcTable i < 2^32 := by
  rw [crcTable_eq_lit i hi]
  have hmem : crcTableLit.get ⟨i, by rw [crcTableLit_length]; exact hi⟩ ∈ crcTableLit :=
    List.get_mem _ _ _
  have := List.all_eq_true.mp crcTableLit_lt _ hmem
  simpa using this

theorem crcTable_inj {i j : Nat} (hi : i < 256) (hj : j < 256)
    (h : crcTable i = crcTable j) : i = j := by
  rw [crcTable_eq_lit i hi, crcTable_eq_lit j hj] at h
  have := (List.Nodup.get_inj_iff crcTableLit_nodup).mp h
  simpa using congrArg Fin.val this

theorem crcTable_hi_inj {i j : Nat} (hi : i < 256) (hj : j < 256)
    (h : crcTable i / 2^24 = crcTable j / 2^24) : i = j := by
  have hlen : (crcTableLit.map (fun x => x / 2^24)).length = 256 := by
    rw [List.length_map, crcTableLit_length]
  have hget : ∀ (n : Nat) (hn : n < 256), crcTable n / 2^24 =
      (crcTableLit.map (fun x => x / 2^24)).get ⟨n, by rw [hlen]; exact hn⟩ := by
    intro n hn
    rw [crcTable_eq_lit n hn]
    simp [List.get_map]
  rw [hget i hi, hget j hj] at h
  have := (List.Nodup.get_inj_iff crcTableLit_hi_nodup).mp h
  simpa using congrArg Fin.val this

theorem xor_mod_two_pow (a b k : Nat) : (a ^^^ b) % 2^k = (a % 2^k) ^^^ (b % 2^k) := by
  apply Nat.eq_of_testBit_eq
  intro i
  simp only [Nat.testBit_mod_two_pow, Nat.testBit_xor]
  cases h : decide (i < k) <;> simp

theorem xor_div_two_pow (a b k : Nat) : (a ^^^ b) / 2^k = (a / 2^k) ^^^ (b / 2^k) := by
  apply Nat.eq_of_testBit_eq
  intro i
  rw [← Nat.shiftRight_eq_div_pow, ← Nat.shiftRight_eq_div_pow, ← Nat.shiftRight_eq_div_pow]
  simp [Nat.testBit_shiftRight, Nat.testBit_xor]

theorem xor_right_cancel {a b x : Nat} (h : a ^^^ x = b ^^^ x) : a = b := by
  have h2 := congrArg (· ^^^ x) h
  simpa [Nat.xor_assoc] using h2

theorem crcUpdate_lt (c b : Nat) (hc : c < 2^32) : crcUpdate c b < 2^32 := by
  unfold crcUpdate
  apply Nat.xor_lt_two_pow
  · exact lt_of_le_of_lt (Nat.div_le_self _ _) hc
  · exact crcTable_lt _ (Nat.mod_lt _ (by norm_num))

theorem div_256_div_2pow24_eq_zero {c : Nat} (hc : c < 2^32) : c / 256 / 2^24 = 0 := by
  rw [Nat.div_div_eq_div_mul]
  exact Nat.div_eq_of_lt (by norm_num at hc ⊢; omega)

theorem crcUpdate_state_inj {c1 c2 : Nat} (b : Nat) (h1 : c1 < 2^32) (h2 : c2 < 2^32)
    (hne : c1 ≠ c2) : crcUpdate c1 b ≠ crcUpdate c2 b := by
  intro heq
  unfold crcUpdate at heq
  have hi1 : (c1 ^^^ b) % 256 < 256 := Nat.mod_lt _ (by norm_num)
  have hi2 : (c2 ^^^ b) % 256 < 256 := Nat.mod_lt _ (by norm_num)
  have hhi := congrArg (· / 2^24) heq
  simp only [xor_div_two_pow] at hhi
  rw [div_256_div_2pow24_eq_zero h1, div_256_div_2pow24_eq_zero h2] at hhi
  simp only [Nat.zero_xor] at hhi
  have hidx : (c1 ^^^ b) % 256 = (c2 ^^^ b) % 256 := crcTable_hi_inj hi1 hi2 hhi
  rw [hidx] at heq
  have hdiv : c1 / 256 = c2 / 256 := xor_right_cancel heq
  have hmod : c1 % 256 = c2 % 256 := by
    have h256 : (256 : Nat) = 2^8 := by norm_num
    rw [h256, xor_mod_two_pow, xor_mod_two_pow] at hidx
    exact xor_right_cancel (by rw [← h256] at hidx; exact hidx)
  exact hne (by omega)

theorem crcUpdate_byte_inj {c b1 b2 : Nat} (hc : c < 2^32) (hb1 : b1 < 256) (hb2 : b2 < 256)
    (hne : b1 ≠ b2) : crcUpdate c b1 ≠ crcUpdate c b2 := by
  intro heq
  unfold crcUpdate at heq
  have hi1 : (c ^^^ b1) % 256 < 256 := Nat.mod_lt _ (by norm_num)
  have hi2 : (c ^^^ b2) % 256 < 256 := Nat.mod_lt _ (by norm_num)
  have hhi := congrArg (· / 2^24) heq
  simp only [xor_div_two_pow] at hhi
  rw [div_256_div_2pow24_eq_zero hc] at hhi
  simp only [Nat.zero_xor] at hhi
  have hidx : (c ^^^ b1) % 256 = (c ^^^ b2) % 256 := crcTable_hi_inj hi1 hi2 hhi
  have h256 : (256 : Nat) = 2^8 := by norm_num
  rw [h256, xor_mod_two_pow, xor_mod_two_pow] at hidx
  have : b1 % 2^8 = b2 % 2^8 := xor_right_cancel (by
    have := hidx
    rw [Nat.xor_comm (c % 2^8) (b1 % 2^8), Nat.xor_comm (c % 2^8) (b2 % 2^8)] at this
    exact this)
  rw [Nat.mod_eq_of_lt (by omega), Nat.mod_eq_of_lt (by omega)] at this
  exact hne this

theorem crcList_lt (l : Bytes) (c : Nat) (hc : c < 2^32) : crcList c l < 2^32 := by
  induction l generalizing c with
  | nil => exact hc
  | cons b t ih => exact ih _ (crcUpdate_lt c b hc)

theorem crcList_state_inj (t : Bytes) {c1 c2 : Nat} (h1 : c1 < 2^32) (h2 : c2 < 2^32)
    (hne : c1 ≠ c2) : crcList c1 t ≠ crcList c2 t := by
  induction t generalizing c1 c2 with
  | nil => exact hne
  | cons b t ih =>
      exact ih (crcUpdate_lt _ b h1) (crcUpdate_lt _ b h2) (crcUpdate_state_inj b h1 h2 hne)

theorem checksum_ne_of_single_diff (p t : Bytes) {b b' : Nat} (hb : b < 256) (hb' : b' < 256)
    (hne : b ≠ b') : checksumIEEE (p ++ b :: t) ≠ checksumIEEE (p ++ b' :: t) := by
  unfold checksumIEEE crcList
  rw [List.foldl_append, List.foldl_append]
  simp only [List.foldl_cons]
  intro heq
  have hs : List.foldl crcUpdate 0xFFFFFFFF p < 2^32 := crcList_lt p _ (by norm_num)
  have hstep : crcUpdate (List.foldl crcUpdate 0xFFFFFFFF p) b ≠
      crcUpdate (List.foldl crcUpdate 0xFFFFFFFF p) b' :=
    crcUpdate_byte_inj hs hb hb' hne
  exact crcList_state_inj t (crcUpdate_lt _ _ hs) (crcUpdate_lt _ _ hs) hstep
    (xor_right_cancel heq)

theorem getD_append_right (l1 l2 : Bytes) (i : Nat) (h : l1.length ≤ i) :
    (l1 ++ l2).getD i 0 = l2.getD (i - l1.length) 0 := by
  induction l1 generalizing i with
  | nil => simp
  | cons a t ih =>
      cases i with
      | zero => simp at h
      | succ j =>
          simp only [List.cons_append, List.getD_cons_succ, List.length_cons]
          rw [ih j (by simpa using h)]
          congr 1
          omega

theorem readLE32_at (pre rest : Bytes) (off : Nat) (h : pre.length = off) :
    readLE32 (pre ++ rest) off = readLE32 rest 0 := by
  unfold readLE32
  rw [getD_append_right _ _ _ (by omega), getD_append_right _ _ _ (by omega),
    getD_append_right _ _ _ (by omega), getD_append_right _ _ _ (by omega)]
  have h0 : off - pre.length = 0 := by omega
  have h1 : off + 1 - pre.length = 1 := by omega
  have h2 : off + 2 - pre.length = 2 := by omega
  have h3 : off + 3 - pre.length = 3 := by omega
  rw [h0, h1, h2, h3]

theorem readLE64_at (pre rest : Bytes) (off : Nat) (h : pre.length = off) :
    readLE64 (pre ++ rest) off = readLE64 rest 0 := by
  unfold readLE64
  rw [getD_append_right _ _ _ (by omega), getD_append_right _ _ _ (by omega),
    getD_append_right _ _ _ (by omega), getD_append_right _ _ _ (by omega),
    getD_append_right _ _ _ (by omega), getD_append_right _ _ _ (by omega),
    getD_append_right _ _ _ (by omega), getD_append_right _ _ _ (by omega)]
  have h0 : off - pre.length = 0 := by omega
  have h1 : off + 1 - pre.length = 1 := by omega
  have h2 : off + 2 - pre.length = 2 := by omega
  have h3 : off + 3 - pre.length = 3 := by omega
  have h4 : off + 4 - pre.length = 4 := by omega
  have h5 : off + 5 - pre.length = 5 := by omega
  have h6 : off + 6 - pre.length = 6 := by omega
  have h7 : off + 7 - pre.length = 7 := by omega
  rw [h0, h1, h2, h3, h4, h5, h6, h7]

theorem readLE32_le32 (n : Nat) (rest : Bytes) : readLE32 (le32 n ++ rest) 0 = n % 2 ^ 32 := by
  simp only [le32, List.cons_append, List.nil_append, readLE32, List.getD_cons_zero,
    List.getD_cons_succ]
  omega

theorem readLE64_le64 (n : Nat) (rest : Bytes) : readLE64 (le64 n ++ rest) 0 = n % 2 ^ 64 := by
  simp only [le64, List.cons_append, List.nil_append, readLE64, List.getD_cons_zero,
    List.getD_cons_succ]
  omega

theorem length_le32 (n : Nat) : (le32 n).length = 4 := rfl

theorem length_le64 (n : Nat) : (le64 n).length = 8 := rfl

theorem length_recordBody (hs : Nat) (r : Record) (h : 21 ≤ hs) :
    (recordBody hs r).length = hs - 4 + r.key.length + r.value.length := by
  simp [recordBody, le64, le32]
  omega

theorem length_encode (hs : Nat) (r : Record) (h : 21 ≤ hs) :
    (encode hs r).length = hs + r.key.length + r.value.length := by
  simp [encode, le32, length_recordBody hs r h]
  omega

theorem checksumIEEE_lt (l : Bytes) : checksumIEEE l < 2 ^ 32 := by
  unfold checksumIEEE
  exact Nat.xor_lt_two_pow (crcList_lt l _ (by norm_num)) (by norm_num)

theorem drop_append_len (l1 l2 : Bytes) (n : Nat) (h : l1.length = n) :
    (l1 ++ l2).drop n = l2 := by
  subst h
  exact List.drop_left _ _

theorem take_append_len (l1 l2 : Bytes) (n : Nat) (h : l1.length = n) :
    (l1 ++ l2).take n = l1 := by
  subst h
  exact List.take_left _ _

theorem recordBody_21 (r : Record) :
    recordBody 21 r =
      le64 r.timestamp ++ (le32 r.keysize ++ (le32 r.valuesize ++ ([r.flag % 256] ++
        (r.key ++ r.value)))) := by
  simp [recordBody, List.append_assoc]

theorem encode_readCRC (r : Record) :
    readLE32 (encode 21 r) 0 = checksumIEEE (recordBody 21 r) := by
  unfold encode
  rw [readLE32_le32]
  exact Nat.mod_eq_of_lt (checksumIEEE_lt _)

theorem encode_readTS (r : Record) :
    readLE64 (encode 21 r) 4 = r.timestamp % 2 ^ 64 := by
  have h : encode 21 r =
      le32 (checksumIEEE (recordBody 21 r)) ++ (le64 r.timestamp ++ (le32 r.keysize ++
        (le32 r.valuesize ++ ([r.flag % 256] ++ (r.key ++ r.value))))) := by
    rw [encode, recordBody_21]
  rw [h, readLE64_at _ _ 4 (by simp [le32]), readLE64_le64]

theorem encode_readKS (r : Record) :
    readLE32 (encode 21 r) 12 = r.keysize % 2 ^ 32 := by
  have h : encode 21 r =
      (le32 (checksumIEEE (recordBody 21 r)) ++ le64 r.timestamp) ++ (le32 r.keysize ++
        (le32 r.valuesize ++ ([r.flag % 256] ++ (r.key ++ r.value)))) := by
    rw [encode, recordBody_21]
    simp [List.append_assoc]
  rw [h, readLE32_at _ _ 12 (by simp [le32, le64]), readLE32_le32]

theorem encode_readVS (r : Record) :
    readLE32 (encode 21 r) 16 = r.valuesize % 2 ^ 32 := by
  have h : encode 21 r =
      (le32 (checksumIEEE (recordBody 21 r)) ++ le64 r.timestamp ++ le32 r.keysize) ++
        (le32 r.valuesize ++ ([r.flag % 256] ++ (r.key ++ r.value))) := by
    rw [encode, recordBody_21]
    simp [List.append_assoc]
  rw [h, readLE32_at _ _ 16 (by simp [le32, le64]), readLE32_le32]

theorem encode_flagByte (r : Record) : (encode 21 r).getD 20 0 = r.flag % 256 := by
  have h : encode 21 r =
      (le32 (checksumIEEE (recordBody 21 r)) ++ le64 r.timestamp ++ le32 r.keysize ++
        le32 r.valuesize) ++ ([r.flag % 256] ++ (r.key ++ r.value)) := by
    rw [encode, recordBody_21]
    simp [List.append_assoc]
  have hlen : (le32 (checksumIEEE (recordBody 21 r)) ++ le64 r.timestamp ++ le32 r.keysize ++
      le32 r.valuesize).length = 20 := by simp [le32, le64]
  rw [h, getD_append_right _ _ _ (by rw [hlen]), hlen]
  simp

theorem encode_drop4 (r : Record) : (encode 21 r).drop 4 = recordBody 21 r := by
  unfold encode
  have h : (le32 (checksumIEEE (recordBody 21 r))).length = 4 := rfl
  rw [← h, List.drop_left]

theorem encode_drop21 (r : Record) : (encode 21 r).drop 21 = r.key ++ r.value := by
  have h : encode 21 r =
      (le32 (checksumIEEE (recordBody 21 r)) ++ le64 r.timestamp ++ le32 r.keysize ++
        le32 r.valuesize ++ [r.flag % 256]) ++ (r.key ++ r.value) := by
    rw [encode, recordBody_21]
    simp [List.append_assoc]
  rw [h, drop_append_len _ _ 21 (by simp [le32, le64])]

theorem encode_dropKey (r : Record) (hk : r.keysize = r.key.length) :
    (encode 21 r).drop (21 + r.keysize) = r.value := by
  have h : encode 21 r =
      ((le32 (checksumIEEE (recordBody 21 r)) ++ le64 r.timestamp ++ le32 r.keysize ++
        le32 r.valuesize ++ [r.flag % 256]) ++ r.key) ++ r.value := by
    rw [encode, recordBody_21]
    simp [List.append_assoc]
  rw [h, drop_append_len _ _ (21 + r.keysize) (by simp [le32, le64, hk]; omega)]

/-- decode ∘ encode restores every logical field; the CRC field of the
result is the freshly computed checksum (Encode never reads r.crc). -/
theorem decode_encode (r : Record) (hwf : RecordWF r) (hk : r.keysize = r.key.length)
    (hv : r.valuesize = r.value.length) :
    decode 21 (encode 21 r) =
      .ok ⟨checksumIEEE (recordBody 21 r), r.timestamp, r.keysize, r.valuesize, r.flag,
        r.key, r.value⟩ := by
  obtain ⟨hts, hks, hvs, hflag, _, _⟩ := hwf
  unfold decode
  rw [encode_readCRC, encode_readTS, encode_readKS, encode_readVS, encode_flagByte,
    encode_drop4, length_encode 21 r (by norm_num)]
  rw [Nat.mod_eq_of_lt hts, Nat.mod_eq_of_lt hks, Nat.mod_eq_of_lt hvs, Nat.mod_eq_of_lt hflag]
  have hc1 : ¬(21 + r.key.length + r.value.length < 21) := by omega
  have hc2 : ¬(21 + r.key.length + r.value.length < 21 + r.keysize + r.valuesize) := by omega
  simp only [if_neg hc1, if_neg hc2, ne_eq, not_true_eq_false, if_neg, ite_not,
    if_pos rfl]
  simp only [encode_drop21, encode_dropKey r hk]
  rw [take_append_len _ _ _ hk.symm, List.take_of_length_le (by omega)]
  simp

theorem getD_set_ne (l : Bytes) {i j : Nat} (b : Nat) (h : i ≠ j) :
    (l.set i b).getD j 0 = l.getD j 0 := by
  rw [List.getD_eq_getElem?_getD, List.getD_eq_getElem?_getD, List.getElem?_set_ne h]

theorem readLE32_set_out (l : Bytes) (i b off : Nat) (h0 : i ≠ off) (h1 : i ≠ off + 1)
    (h2 : i ≠ off + 2) (h3 : i ≠ off + 3) :
    readLE32 (l.set i b) off = readLE32 l off := by
  unfold readLE32
  rw [getD_set_ne _ _ h0, getD_set_ne _ _ h1, getD_set_ne _ _ h2, getD_set_ne _ _ h3]

theorem mem_le32_lt {n b : Nat} (h : b ∈ le32 n) : b < 256 := by
  simp [le32] at h
  rcases h with h | h | h | h <;> (subst h; exact Nat.mod_lt _ (by norm_num))

theorem mem_le64_lt {n b : Nat} (h : b ∈ le64 n) : b < 256 := by
  simp [le64] at h
  rcases h with h | h | h | h | h | h | h | h <;> (subst h; exact Nat.mod_lt _ (by norm_num))

theorem recordBody_bytes_lt (hs : Nat) (r : Record) (hwf : RecordWF r) :
    ∀ b ∈ recordBody hs r, b < 256 := by
  obtain ⟨_, _, _, _, hkb, hvb⟩ := hwf
  intro b hb
  unfold recordBody at hb
  simp only [List.append_assoc, List.mem_append] at hb
  rcases hb with h | h | h | h | h | h | h
  · exact mem_le64_lt h
  · exact mem_le32_lt h
  · exact mem_le32_lt h
  · rw [List.mem_singleton] at h
    subst h
    exact Nat.mod_lt _ (by norm_num)
  · rw [List.eq_of_mem_replicate h]
    norm_num
  · exact hkb b h
  · exact hvb b h

theorem encode_getD_body (r : Record) (i : Nat) (h4 : 4 ≤ i) :
    (encode 21 r).getD i 0 = (recordBody 21 r).getD (i - 4) 0 := by
  unfold encode
  rw [getD_append_right _ _ _ (by simp [le32]; omega)]
  simp [le32]

theorem encode_getD_lt (r : Record) (hwf : RecordWF r) (i : Nat) (h4 : 4 ≤ i)
    (hi : i < (encode 21 r).length) : (encode 21 r).getD i 0 < 256 := by
  rw [encode_getD_body r i h4]
  have hlen : (recordBody 21 r).length = (encode 21 r).length - 4 := by
    unfold encode
    simp [le32]
  have hib : i - 4 < (recordBody 21 r).length := by omega
  rw [List.getD_eq_getElem?_getD, List.getElem?_eq_getElem hib]
  exact recordBody_bytes_lt 21 r hwf _ (List.getElem_mem _)

theorem checksum_set_ne (body : Bytes) (hb : ∀ b ∈ body, b < 256) (j b2 : Nat)
    (hj : j < body.length) (hb2 : b2 < 256) (hne : b2 ≠ body.getD j 0) :
    checksumIEEE (body.set j b2) ≠ checksumIEEE body := by
  have hsplit : body.set j b2 = body.take j ++ b2 :: body.drop (j + 1) := by
    rw [List.set_eq_take_append_cons_drop, if_pos hj]
  have hbody : body = body.take j ++ body.getD j 0 :: body.drop (j + 1) := by
    conv_lhs => rw [← List.take_append_drop j body]
    congr 1
    rw [List.getD_eq_getElem?_getD, List.getElem?_eq_getElem hj]
    exact (List.drop_eq_getElem_cons hj).symm ▸ rfl
  have horig : body.getD j 0 < 256 := by
    rw [List.getD_eq_getElem?_getD, List.getElem?_eq_getElem hj]
    exact hb _ (List.getElem_mem _)
  rw [hsplit]
  conv_rhs => rw [hbody]
  exact checksum_ne_of_single_diff _ _ hb2 horig hne

theorem flip_decode_fails (r : Record) (hwf : RecordWF r) (hk : r.keysize = r.key.length)
    (hv : r.valuesize = r.value.length) (i b2 : Nat) (h4 : 4 ≤ i)
    (hiL : i < 21 + r.key.length + r.value.length) (hb2 : b2 < 256)
    (hne : b2 ≠ (encode 21 r).getD i 0) :
    (∃ e, decode 21 ((encode 21 r).set i b2) = .error e) ∧
    (decode 21 ((encode 21 r).set i b2) = .error .checksumMismatch ↔
      21 + readLE32 ((encode 21 r).set i b2) 12 + readLE32 ((encode 21 r).set i b2) 16 ≤
        21 + r.key.length + r.value.length) ∧
    ((i < 12 ∨ 20 ≤ i) → decode 21 ((encode 21 r).set i b2) = .error .checksumMismatch) := by
  obtain ⟨hts, hks, hvs, hflag, hkb, hvb⟩ := hwf
  have hEl : (encode 21 r).length = 21 + r.key.length + r.value.length :=
    length_encode 21 r (by norm_num)
  have hlen : ((encode 21 r).set i b2).length = 21 + r.key.length + r.value.length := by
    rw [List.length_set, hEl]
  have hcrc : readLE32 ((encode 21 r).set i b2) 0 = readLE32 (encode 21 r) 0 :=
    readLE32_set_out _ _ _ _ (by omega) (by omega) (by omega) (by omega)
  have hdrop : ((encode 21 r).set i b2).drop 4 = (recordBody 21 r).set (i - 4) b2 := by
    rw [List.drop_set, if_neg (by omega), encode_drop4]
  have hbl : (recordBody 21 r).length = 17 + r.key.length + r.value.length := by
    rw [length_recordBody 21 r (by norm_num)]
  have hj : i - 4 < (recordBody 21 r).length := by omega
  have hneq : b2 ≠ (recordBody 21 r).getD (i - 4) 0 := by
    rw [← encode_getD_body r i h4]
    exact hne
  have hck : checksumIEEE (((encode 21 r).set i b2).drop 4) ≠
      readLE32 ((encode 21 r).set i b2) 0 := by
    rw [hdrop, hcrc, encode_readCRC]
    exact checksum_set_ne _ (recordBody_bytes_lt 21 r ⟨hts, hks, hvs, hflag, hkb, hvb⟩) _ _
      hj hb2 hneq
  unfold decode
  rw [hlen]
  rw [if_neg (by omega)]
  by_cases hsb : 21 + r.key.length + r.value.length <
      21 + readLE32 ((encode 21 r).set i b2) 12 + readLE32 ((encode 21 r).set i b2) 16
  · rw [if_pos hsb]
    refine ⟨⟨.shortBody, rfl⟩, ?_, ?_⟩
    · constructor
      · intro h
        simp at h
      · intro h
        omega
    · intro hcase
      exfalso
      have h12 : readLE32 ((encode 21 r).set i b2) 12 = readLE32 (encode 21 r) 12 :=
        readLE32_set_out _ _ _ _ (by omega) (by omega) (by omega) (by omega)
      have h16 : readLE32 ((encode 21 r).set i b2) 16 = readLE32 (encode 21 r) 16 :=
        readLE32_set_out _ _ _ _ (by omega) (by omega) (by omega) (by omega)
      rw [h12, h16, encode_readKS, encode_readVS, Nat.mod_eq_of_lt hks,
        Nat.mod_eq_of_lt hvs] at hsb
      omega
  · rw [if_neg hsb, if_pos hck]
    refine ⟨⟨.checksumMismatch, rfl⟩, ?_, fun _ => rfl⟩
    constructor
    · intro _
      omega
    · intro _
      rfl

/-- C7: for every valid record (Keysize = len(Key), Valuesize = len(Value),
headerSize 21), Decode(Encode(r, 21), 21) succeeds and reproduces the
timestamp, key, value and flag exactly. -/
theorem C7_decode_encode_roundtrip (r : Record) (hwf : RecordWF r)
    (hk : r.keysize = r.key.length) (hv : r.valuesize = r.value.length) :
    ∃ r2, decode 21 (encode 21 r) = .ok r2 ∧ r2.timestamp = r.timestamp ∧
      r2.key = r.key ∧ r2.value = r.value ∧ r2.flag = r.flag :=
  ⟨_, decode_encode r hwf hk hv, rfl, rfl, rfl, rfl⟩

/-- Witness for C7 at the concrete record sampleRec. -/
theorem C7_witness :
    (RecordWF sampleRec ∧ sampleRec.keysize = sampleRec.key.length ∧
      sampleRec.valuesize = sampleRec.value.length) ∧
    (∃ r2, decode 21 (encode 21 sampleRec) = .ok r2 ∧
      r2.timestamp = sampleRec.timestamp ∧ r2.key = sampleRec.key ∧
      r2.value = sampleRec.value ∧ r2.flag = sampleRec.flag) :=
  ⟨⟨by decide, by decide, by decide⟩,
    C7_decode_encode_roundtrip sampleRec (by decide) (by decide) (by decide)⟩

/-- C4 (amended): with both length checks passed, Decode recomputes the CRC
over data[4:], i.e. over the whole remaining buffer rather than the span
bounded by headerSize+keyLen+valLen, and fails with ChecksumMismatch iff that
recomputation disagrees with the stored checksum. -/
theorem C4_checksum_span (data : Bytes) (h1 : ¬ data.length < 21)
    (h2 : ¬ data.length < 21 + readLE32 data 12 + readLE32 data 16) :
    (decode 21 data = .error .checksumMismatch ↔
      checksumIEEE (data.drop 4) ≠ readLE32 data 0) ∧
    ((∃ r2, decode 21 data = .ok r2) ↔ checksumIEEE (data.drop 4) = readLE32 data 0) := by
  unfold decode
  rw [if_neg h1, if_neg h2]
  by_cases h : checksumIEEE (data.drop 4) = readLE32 data 0
  · rw [if_neg (by simp [h])]
    constructor
    · constructor
      · intro hbad
        simp at hbad
      · intro hbad
        exact absurd h hbad
    · constructor
      · intro _
        exact h
      · intro _
        exact ⟨_, rfl⟩
  · rw [if_pos h]
    constructor
    · constructor
      · intro _
        exact h
      · intro _
        rfl
    · constructor
      · intro hbad
        obtain ⟨r2, hr2⟩ := hbad
        simp at hr2
      · intro hbad
        exact absurd hbad h

/-- Counterexample for C4 as stated: a buffer whose 29-byte prefix is a valid
encoding fails to decode once a single trailing byte is appended, because the
recomputed CRC span data[4:] includes the trailing byte. -/
theorem C4_counterexample :
    (decode 21 (encode 21 sampleRec)).isOk = true ∧
    decode 21 (encode 21 sampleRec ++ [0]) = .error .checksumMismatch := by
  decide

/-- Witness for C4 (amended) at the exact-length encoding of sampleRec. -/
theorem C4_witness :
    ((¬ (encode 21 sampleRec).length < 21) ∧
      (¬ (encode 21 sampleRec).length < 21 + readLE32 (encode 21 sampleRec) 12 +
        readLE32 (encode 21 sampleRec) 16)) ∧
    ((decode 21 (encode 21 sampleRec) = .error .checksumMismatch ↔
      checksumIEEE ((encode 21 sampleRec).drop 4) ≠ readLE32 (encode 21 sampleRec) 0) ∧
    ((∃ r2, decode 21 (encode 21 sampleRec) = .ok r2) ↔
      checksumIEEE ((encode 21 sampleRec).drop 4) = readLE32 (encode 21 sampleRec) 0)) :=
  ⟨⟨by decide, by decide⟩, C4_checksum_span (encode 21 sampleRec) (by decide) (by decide)⟩

/-- C6 (amended): changing any single byte in the checksum-covered span
[4, 21+keyLen+valLen) of an encoded valid record makes Decode fail; the
failure is ChecksumMismatch exactly when the (possibly corrupted) declared
lengths still fit the buffer, which always holds when the flipped position is
outside the length fields [12, 20). -/
theorem C6_flip_detected (r : Record) (hwf : RecordWF r)
    (hk : r.keysize = r.key.length) (hv : r.valuesize = r.value.length) (i b2 : Nat)
    (h4 : 4 ≤ i) (hiL : i < 21 + r.key.length + r.value.length) (hb2 : b2 < 256)
    (hne : b2 ≠ (encode 21 r).getD i 0) :
    (∃ e, decode 21 ((encode 21 r).set i b2) = .error e) ∧
    (decode 21 ((encode 21 r).set i b2) = .error .checksumMismatch ↔
      21 + readLE32 ((encode 21 r).set i b2) 12 + readLE32 ((encode 21 r).set i b2) 16 ≤
        21 + r.key.length + r.value.length) ∧
    ((i < 12 ∨ 20 ≤ i) → decode 21 ((encode 21 r).set i b2) = .error .checksumMismatch) :=
  flip_decode_fails r hwf hk hv i b2 h4 hiL hb2 hne

/-- Counterexample for C6 as stated: flipping byte 13 (inside the key-length
field, within the checksum-covered span) of a valid encoding makes Decode fail
with the short-body error, not ChecksumMismatch. -/
theorem C6_counterexample :
    decode 21 ((encode 21 sampleRec).set 13 1) = .error .shortBody ∧
    DecodeErr.shortBody ≠ DecodeErr.checksumMismatch := by
  decide

/-- Witness for C6 (amended) at sampleRec, flipping timestamp byte 6 to 0. -/
theorem C6_witness :
    (RecordWF sampleRec ∧ sampleRec.keysize = sampleRec.key.length ∧
      sampleRec.valuesize = sampleRec.value.length ∧ 4 ≤ 6 ∧
      6 < 21 + sampleRec.key.length + sampleRec.value.length ∧ (0 : Nat) < 256 ∧
      (0 : Nat) ≠ (encode 21 sampleRec).getD 6 0) ∧
    ((∃ e, decode 21 ((encode 21 sampleRec).set 6 0) = .error e) ∧
      (decode 21 ((encode 21 sampleRec).set 6 0) = .error .checksumMismatch ↔
        21 + readLE32 ((encode 21 sampleRec).set 6 0) 12 +
          readLE32 ((encode 21 sampleRec).set 6 0) 16 ≤
          21 + sampleRec.key.length + sampleRec.value.length) ∧
      ((6 < 12 ∨ 20 ≤ 6) → decode 21 ((encode 21 sampleRec).set 6 0) =
        .error .checksumMismatch)) :=
  ⟨⟨by decide, by decide, by decide, by decide, by decide, by decide, by decide⟩,
    C6_flip_detected sampleRec (by decide) (by decide) (by decide) 6 0 (by decide)
      (by decide) (by decide) (by decide)⟩

/-- C5: with the test configuration (BATCH_SIZE 4096) and the default
4096-byte writer, appending 9 bytes to a fresh file with no elapsed time
flushes immediately — the code compares buffer.Size() (the fixed capacity)
against BATCH_SIZE — while the spec condition (buffered bytes ≥ batch-size or
elapsed ≥ sync-interval) is false: only 9 bytes are buffered and no time has
passed. -/
theorem C5_flush_uses_capacity :
    fileAppend testCfg 0 true testData9 (newFile 0 []) =
      .ok (0, ⟨testData9, [], 4096, 0⟩) ∧
    specFlushCondition testCfg 0 testData9.length 0 = false := by
  decide

/-- C10 (amended): for every non-negative offset, ReadAt returns a buffer of
exactly size bytes with nil error; positions beyond the flushed file are
zero-filled and positions inside it carry the file's bytes — end-of-file is
never surfaced as an error or a short result. -/
theorem C10_readAt_zero_fills (fs : FileState) (offset : Int) (size : Nat)
    (h0 : 0 ≤ offset) :
    ∃ out, fileReadAt fs offset size = .ok out ∧ out.length = size ∧
      (∀ j, j < size → fs.disk.length ≤ offset.toNat + j → out.getD j 0 = 0) ∧
      (∀ j, j < size → offset.toNat + j < fs.disk.length →
        out.getD j 0 = fs.disk.getD (offset.toNat + j) 0) := by
  refine ⟨(fs.disk.drop offset.toNat).take size ++
      List.replicate (size - ((fs.disk.drop offset.toNat).take size).length) 0,
    ?_, ?_, ?_, ?_⟩
  · unfold fileReadAt
    rw [if_neg (by omega)]
  · simp [List.length_replicate, List.length_take, List.length_drop]
  · intro j hj hpast
    have hrb : ((fs.disk.drop offset.toNat).take size).length ≤ j := by
      simp [List.length_take, List.length_drop]
      omega
    rw [List.getD_eq_getElem?_getD, List.getElem?_append_right hrb,
      List.getElem?_replicate]
    split <;> rfl
  · intro j hj hin
    have hrb : j < ((fs.disk.drop offset.toNat).take size).length := by
      simp [List.length_take, List.length_drop]
      omega
    rw [List.getD_eq_getElem?_getD, List.getElem?_append, if_pos hrb,
      List.getElem?_take_of_lt hj, List.getElem?_drop, List.getD_eq_getElem?_getD]

/-- Counterexample for C10 as stated: offset -1 with size 10 satisfies
offset + size > flushed length, yet ReadAt surfaces an error (the OS rejects
a negative offset with an error other than io.EOF). -/
theorem C10_counterexample :
    fileReadAt (newFile 0 []) (-1) 10 = .error () ∧
    ((-1 : Int) + 10 > (([] : Bytes)).length) := by
  decide

/-- Witness for C10 (amended) at a concrete file and read. -/
theorem C10_witness :
    (0 : Int) ≤ 1 ∧
    (∃ out, fileReadAt (newFile 0 [1, 2, 3]) 1 5 = .ok out ∧ out.length = 5 ∧
      (∀ j, j < 5 → (newFile 0 [1, 2, 3]).disk.length ≤ (1 : Int).toNat + j →
        out.getD j 0 = 0) ∧
      (∀ j, j < 5 → (1 : Int).toNat + j < (newFile 0 [1, 2, 3]).disk.length →
        out.getD j 0 = (newFile 0 [1, 2, 3]).disk.getD ((1 : Int).toNat + j) 0)) :=
  ⟨by decide, C10_readAt_zero_fills (newFile 0 [1, 2, 3]) 1 5 (by decide)⟩

theorem bufWriteAux_join (cap fuel : Nat) (disk buf p : Bytes) :
    (bufWriteAux cap fuel disk buf p).1 ++ (bufWriteAux cap fuel disk buf p).2 =
      disk ++ buf ++ p := by
  induction fuel generalizing disk buf p with
  | zero => simp [bufWriteAux]
  | succ n ih =>
      unfold bufWriteAux
      by_cases h1 : p.length ≤ cap - buf.length
      · simp [h1]
      · rw [if_neg h1]
        by_cases h2 : buf.length = 0
        · rw [if_pos h2]
          have : buf = [] := List.length_eq_zero.mp h2
          simp [this]
        · rw [if_neg h2]
          rw [ih]
          simp [List.append_assoc]

theorem bufWrite_join (cap : Nat) (disk buf p : Bytes) :
    (bufWrite cap disk buf p).1 ++ (bufWrite cap disk buf p).2 = disk ++ buf ++ p :=
  bufWriteAux_join cap _ disk buf p

theorem fileAppend_ok (cfg : Config) (now : Nat) (data : Bytes) (fs : FileState) :
    ∃ fs2, fileAppend cfg now true data fs = .ok (fs.disk.length + fs.buf.length, fs2) ∧
      fs2.disk ++ fs2.buf = fs.disk ++ fs.buf ++ data ∧ fs2.bufCap = fs.bufCap ∧
      (cfg.batchSize ≤ fs.bufCap → fs2.buf = [] ∧ fs2.disk = fs.disk ++ fs.buf ++ data) := by
  unfold fileAppend
  simp only [Bool.not_true, Bool.false_eq_true, if_false]
  by_cases hc : cfg.batchSize ≤ fs.bufCap ∨ cfg.syncInterval ≤ now - fs.lastSync
  · rw [if_pos hc]
    refine ⟨_, rfl, ?_, rfl, ?_⟩
    · simp [flushAndSync, bufWrite_join]
    · intro _
      constructor
      · rfl
      · simp [flushAndSync, bufWrite_join]
  · rw [if_neg hc]
    refine ⟨_, rfl, ?_, rfl, ?_⟩
    · simpa using bufWrite_join fs.bufCap fs.disk fs.buf data
    · intro hbatch
      exact absurd (Or.inl hbatch) hc

theorem kdLoad_store_self (d : KeyDir) (k : Bytes) (e : KeyEntry) :
    kdLoad (kdStore d k e) k = some e := by
  simp [kdLoad, kdStore, List.lookup]

theorem kdLoad_delete_self (d : KeyDir) (k : Bytes) :
    kdLoad (kdDelete d k) k = none := by
  induction d with
  | nil => rfl
  | cons p t ih =>
      unfold kdDelete at ih ⊢
      rw [List.filter_cons]
      by_cases h : p.1 = k
      · rw [if_neg (by simp [h])]
        exact ih
      · rw [if_pos (by simp [h])]
        simp only [kdLoad, List.lookup]
        have hne : (k == p.1) = false := beq_eq_false_iff_ne.mpr (Ne.symm h)
        rw [hne]
        exact ih

/-- C2: Put appends the encoded Normal record immediately followed by the
zero-length Commit record in one single Append call, and only after that
append succeeds stores a directory entry holding the data record's offset
(the pre-append log length) and size headerSize + |key| + |value| — the
commit record's 21 bytes are not counted; when the append fails, the
directory is unchanged and Put reports the error. -/
theorem C2_put_atomic (cfg : Config) (tsr tsc now : Nat) (osOk : Bool) (k v : Bytes)
    (s : EngState) (hhs : cfg.headerSize = 21) (hkv : 21 + k.length + v.length < 2 ^ 32) :
    (osOk = true →
      (enginePut cfg tsr tsc now osOk k v s).1 = .ok () ∧
      logOf (enginePut cfg tsr tsc now osOk k v s).2 =
        logOf s ++ (encode 21 (putRecord tsr k v) ++ encode 21 (commitRecord tsc)) ∧
      kdLoad (enginePut cfg tsr tsc now osOk k v s).2.keyDir k =
        some ⟨0, 21 + k.length + v.length, (logOf s).length⟩ ∧
      (encode 21 (putRecord tsr k v)).length = 21 + k.length + v.length) ∧
    (osOk = false →
      (enginePut cfg tsr tsc now osOk k v s).1 = .error .ioFailure ∧
      (enginePut cfg tsr tsc now osOk k v s).2.keyDir = s.keyDir) := by
  constructor
  · intro hok
    subst hok
    obtain ⟨fs2, happ, hjoin, _, _⟩ := fileAppend_ok cfg now
      (encode cfg.headerSize (putRecord tsr k v) ++ encode cfg.headerSize (commitRecord tsc))
      s.file
    unfold enginePut
    rw [hhs] at happ hjoin ⊢
    rw [happ]
    refine ⟨rfl, ?_, ?_, ?_⟩
    · simpa [logOf, List.append_assoc] using hjoin
    · simp only [kdLoad_store_self]
      congr 2
      · have h1 : k.length % 2 ^ 32 = k.length := Nat.mod_eq_of_lt (by omega)
        have h2 : v.length % 2 ^ 32 = v.length := Nat.mod_eq_of_lt (by omega)
        rw [h1, h2, Nat.mod_eq_of_lt (by omega)]
        omega
      · simp [logOf]
    · rw [length_encode 21 _ (by norm_num)]
      simp [putRecord]
  · intro hfail
    subst hfail
    unfold enginePut fileAppend
    simp

/-- Witness for C2 at a concrete put on the empty engine. -/
theorem C2_witness :
    (testCfg.headerSize = 21 ∧ 21 + [107].length + [118].length < 2 ^ 32) ∧
    ((true = true →
      (enginePut testCfg 0 0 0 true [107] [118] ⟨[], newFile 0 []⟩).1 = .ok () ∧
      logOf (enginePut testCfg 0 0 0 true [107] [118] ⟨[], newFile 0 []⟩).2 =
        logOf ⟨[], newFile 0 []⟩ ++
          (encode 21 (putRecord 0 [107] [118]) ++ encode 21 (commitRecord 0)) ∧
      kdLoad (enginePut testCfg 0 0 0 true [107] [118] ⟨[], newFile 0 []⟩).2.keyDir [107] =
        some ⟨0, 21 + [107].length + [118].length, (logOf ⟨[], newFile 0 []⟩).length⟩ ∧
      (encode 21 (putRecord 0 [107] [118])).length = 21 + [107].length + [118].length) ∧
    (true = false →
      (enginePut testCfg 0 0 0 true [107] [118] ⟨[], newFile 0 []⟩).1 = .error .ioFailure ∧
      (enginePut testCfg 0 0 0 true [107] [118] ⟨[], newFile 0 []⟩).2.keyDir =
        (⟨[], newFile 0 []⟩ : EngState).keyDir)) :=
  ⟨⟨by decide, by decide⟩,
    C2_put_atomic testCfg 0 0 0 true [107] [118] ⟨[], newFile 0 []⟩ (by decide) (by decide)⟩

/-- C9: Put(k,v) then a successful Delete(k) removes the directory entry
immediately, a subsequent Get(k) fails KeyNotFound, and the key's stale
record bytes are still present in the log at their original offset. -/
theorem C9_delete_then_get (cfg : Config) (t1 t2 t3 t4 now : Nat) (k v : Bytes)
    (s : EngState) :
    (engineGet cfg now k
      (engineDelete cfg t3 t4 true k (enginePut cfg t1 t2 now true k v s).2).2).1 =
        .error .keyNotFound ∧
    kdLoad (engineDelete cfg t3 t4 true k (enginePut cfg t1 t2 now true k v s).2).2.keyDir
      k = none ∧
    ((logOf (engineDelete cfg t3 t4 true k (enginePut cfg t1 t2 now true k v s).2).2).drop
        (logOf s).length).take (encode cfg.headerSize (putRecord t1 k v)).length =
      encode cfg.headerSize (putRecord t1 k v) := by
  obtain ⟨fs2, happ, hjoin, _, _⟩ := fileAppend_ok cfg now
    (encode cfg.headerSize (putRecord t1 k v) ++ encode cfg.headerSize (commitRecord t2))
    s.file
  obtain ⟨fs3, happ3, hjoin3, _, _⟩ := fileAppend_ok cfg t4
    (encode cfg.headerSize (tombRecord t3 k)) fs2
  have hput : (enginePut cfg t1 t2 now true k v s).2 =
      ⟨kdStore s.keyDir k ⟨0, (v.length % 2 ^ 32 + k.length % 2 ^ 32 + cfg.headerSize) %
        2 ^ 32, s.file.disk.length + s.file.buf.length⟩, fs2⟩ := by
    unfold enginePut
    rw [happ]
  have hdel : (engineDelete cfg t3 t4 true k (enginePut cfg t1 t2 now true k v s).2).2 =
      ⟨kdDelete (kdStore s.keyDir k ⟨0, (v.length % 2 ^ 32 + k.length % 2 ^ 32 +
        cfg.headerSize) % 2 ^ 32, s.file.disk.length + s.file.buf.length⟩) k, fs3⟩ := by
    rw [hput]
    unfold engineDelete
    rw [happ3]
  rw [hdel]
  have hnone : kdLoad (kdDelete (kdStore s.keyDir k ⟨0, (v.length % 2 ^ 32 +
      k.length % 2 ^ 32 + cfg.headerSize) % 2 ^ 32,
      s.file.disk.length + s.file.buf.length⟩) k) k = none := kdLoad_delete_self _ k
  refine ⟨?_, hnone, ?_⟩
  · unfold engineGet
    rw [hnone]
  · have hlog : fs3.disk ++ fs3.buf = logOf s ++
        ((encode cfg.headerSize (putRecord t1 k v) ++
          encode cfg.headerSize (commitRecord t2)) ++
          encode cfg.headerSize (tombRecord t3 k)) := by
      simp only [logOf]
      rw [hjoin3, hjoin]
      simp [List.append_assoc]
    simp only [logOf]
    rw [hlog, drop_append_len _ _ _ (by simp [logOf])]
    rw [List.append_assoc, take_append_len _ _ _ rfl]

theorem getD_append_left (l1 l2 : Bytes) (i : Nat) (h : i < l1.length) :
    (l1 ++ l2).getD i 0 = l1.getD i 0 := by
  rw [List.getD_eq_getElem?_getD, List.getElem?_append, if_pos h,
    List.getD_eq_getElem?_getD]

theorem readLE32_front (l1 l2 : Bytes) (off : Nat) (h : off + 4 ≤ l1.length) :
    readLE32 (l1 ++ l2) off = readLE32 l1 off := by
  unfold readLE32
  rw [getD_append_left _ _ _ (by omega), getD_append_left _ _ _ (by omega),
    getD_append_left _ _ _ (by omega), getD_append_left _ _ _ (by omega)]

theorem readNextRecord_chunk (c rest : Bytes) (r : Record) (h21 : 21 ≤ c.length)
    (hlen : c.length = 21 + readLE32 c 12 + readLE32 c 16)
    (hdec : decode 21 c = .ok r) :
    readNextRecord 21 (c ++ rest) = .next r c.length := by
  unfold readNextRecord
  rw [if_neg (by rw [List.length_append]; omega)]
  rw [if_neg (by rw [List.length_append]; omega)]
  rw [readLE32_front _ _ 12 (by omega), readLE32_front _ _ 16 (by omega)]
  rw [if_neg (by rw [List.length_append]; omega)]
  rw [← hlen, take_append_len _ _ _ rfl, hdec]

theorem readNextRecord_next_bounds (bytes : Bytes) (r : Record) (total : Nat)
    (h : readNextRecord 21 bytes = .next r total) : 21 ≤ total ∧ total ≤ bytes.length := by
  unfold readNextRecord at h
  by_cases h1 : bytes.length = 0
  · rw [if_pos h1] at h
    cases h
  rw [if_neg h1] at h
  by_cases h2 : bytes.length < 21
  · rw [if_pos h2] at h
    cases h
  rw [if_neg h2] at h
  by_cases h3 : bytes.length < 21 + readLE32 bytes 12 + readLE32 bytes 16
  · rw [if_pos h3] at h
    cases h
  rw [if_neg h3] at h
  rcases hd : decode 21 (bytes.take (21 + readLE32 bytes 12 + readLE32 bytes 16)) with
    e | r2
  · rw [hd] at h
    cases h
  · rw [hd] at h
    cases h
    omega

theorem scanAux_fuel (f1 : Nat) : ∀ (f2 : Nat) (bytes : Bytes) (off : Nat)
    (pending : List PendingRec) (dir : KeyDir) (count : Nat),
    bytes.length < f1 → bytes.length < f2 →
    scanAux 21 f1 bytes off pending dir count = scanAux 21 f2 bytes off pending dir count := by
  induction f1 with
  | zero =>
      intro f2 bytes off pending dir count h1 h2
      omega
  | succ n ih =>
      intro f2 bytes off pending dir count h1 h2
      cases f2 with
      | zero => omega
      | succ m =>
          cases hr : readNextRecord 21 bytes with
          | eof => simp only [scanAux, hr]
          | fail => simp only [scanAux, hr]
          | next r total =>
              simp only [scanAux, hr]
              obtain ⟨ht, hle⟩ := readNextRecord_next_bounds bytes r total hr
              have hlen : (bytes.drop total).length < n := by
                simp only [List.length_drop]
                omega
              have hlen2 : (bytes.drop total).length < m := by
                simp only [List.length_drop]
                omega
              by_cases hflag : r.flag = FlagCommit
              · rw [if_pos hflag, if_pos hflag]
                exact ih m _ _ _ _ _ hlen hlen2
              · rw [if_neg hflag, if_neg hflag]
                exact ih m _ _ _ _ _ hlen hlen2

theorem scanAux_chunk (c rest : Bytes) (fuel off : Nat) (pending : List PendingRec)
    (dir : KeyDir) (count : Nat) (hwf : WFChunk 21 c) :
    scanAux 21 (fuel + 1) (c ++ rest) off pending dir count =
      scanAux 21 fuel rest (off + c.length) (chunkStep c (pending, dir, count)).1
        (chunkStep c (pending, dir, count)).2.1 (chunkStep c (pending, dir, count)).2.2 := by
  obtain ⟨h21, hlen, hok⟩ := hwf
  rcases hd : decode 21 c with e | r
  · rw [hd] at hok
    cases hok
  have hdec := hd
  have hr : readNextRecord 21 (c ++ rest) = .next r c.length :=
    readNextRecord_chunk c rest r h21 hlen hdec
  simp only [scanAux, hr, chunkStep, hdec]
  rw [drop_append_len _ _ _ rfl]
  by_cases hflag : r.flag = FlagCommit
  · rw [if_pos hflag, if_pos hflag]
  · rw [if_neg hflag, if_neg hflag]

theorem scanAux_chunks (chunks : List Bytes) : ∀ (rest : Bytes) (off : Nat)
    (pending : List PendingRec) (dir : KeyDir) (count : Nat),
    (∀ c ∈ chunks, WFChunk 21 c) →
    scanAux 21 ((chunks.join ++ rest).length + 1) (chunks.join ++ rest) off pending dir
        count =
      scanAux 21 (rest.length + 1) rest (off + chunks.join.length)
        (replayChunks chunks (pending, dir, count)).1
        (replayChunks chunks (pending, dir, count)).2.1
        (replayChunks chunks (pending, dir, count)).2.2 := by
  induction chunks with
  | nil =>
      intro rest off pending dir count _
      simp [replayChunks]
  | cons c cs ih =>
      intro rest off pending dir count hwf
      have hc : WFChunk 21 c := hwf c (List.mem_cons_self c cs)
      have hcs : ∀ c2 ∈ cs, WFChunk 21 c2 := fun c2 h2 => hwf c2 (List.mem_cons_of_mem c h2)
      have hassoc : (c :: cs).join ++ rest = c ++ (cs.join ++ rest) := by
        simp [List.append_assoc]
      rw [hassoc]
      have hlen : (c ++ (cs.join ++ rest)).length = c.length + (cs.join ++ rest).length := by
        simp
      rw [hlen]
      have hsplit : c.length + (cs.join ++ rest).length + 1 =
          (c.length + (cs.join ++ rest).length) + 1 := rfl
      rw [hsplit, scanAux_chunk c _ _ off pending dir count hc]
      have h21 : 21 ≤ c.length := hc.1
      have hfe : scanAux 21 (c.length + (cs.join ++ rest).length) (cs.join ++ rest)
          (off + c.length) (chunkStep c (pending, dir, count)).1
          (chunkStep c (pending, dir, count)).2.1
          (chunkStep c (pending, dir, count)).2.2 =
          scanAux 21 ((cs.join ++ rest).length + 1) (cs.join ++ rest)
          (off + c.length) (chunkStep c (pending, dir, count)).1
          (chunkStep c (pending, dir, count)).2.1
          (chunkStep c (pending, dir, count)).2.2 :=
        scanAux_fuel _ _ _ _ _ _ _ (by omega) (by omega)
      rw [hfe, ih rest (off + c.length) _ _ _ hcs]
      have hrep : replayChunks (c :: cs) (pending, dir, count) =
          replayChunks cs (chunkStep c (pending, dir, count)) := rfl
      rw [hrep]
      have heta : ((chunkStep c (pending, dir, count)).1,
          (chunkStep c (pending, dir, count)).2.1,
          (chunkStep c (pending, dir, count)).2.2) = chunkStep c (pending, dir, count) := by
        simp
      rw [heta]
      have hoff : off + c.length + cs.join.length = off + (c :: cs).join.length := by
        simp [Nat.add_assoc]
      rw [hoff]

theorem scanAux_stop_eof (fuel : Nat) (bytes : Bytes) (off : Nat)
    (pending : List PendingRec) (dir : KeyDir) (count : Nat)
    (hr : readNextRecord 21 bytes = .eof) :
    scanAux 21 (fuel + 1) bytes off pending dir count = .ok (dir, count) := by
  simp only [scanAux, hr]

theorem scanAux_stop_fail (fuel : Nat) (bytes : Bytes) (off : Nat)
    (pending : List PendingRec) (dir : KeyDir) (count : Nat)
    (hr : readNextRecord 21 bytes = .fail) :
    scanAux 21 (fuel + 1) bytes off pending dir count = .error () := by
  simp only [scanAux, hr]

theorem readNextRecord_eof_of_short_body (t : Bytes) (h1 : 21 ≤ t.length)
    (h2 : t.length < 21 + readLE32 t 12 + readLE32 t 16) :
    readNextRecord 21 t = .eof := by
  unfold readNextRecord
  rw [if_neg (by omega), if_neg (by omega), if_pos h2]

theorem readNextRecord_fail_of_partial_header (t : Bytes) (h1 : 1 ≤ t.length)
    (h2 : t.length < 21) : readNextRecord 21 t = .fail := by
  unfold readNextRecord
  rw [if_neg (by omega), if_pos h2]

theorem readNextRecord_nil : readNextRecord 21 [] = .eof := by
  decide

/-- C3 (amended): replaying a wellformed stream of complete records followed
by a torn tail: when the tail still holds a full 21-byte header but fewer
bytes than its declared body, the scan stops cleanly and returns exactly the
state of scanning the untorn stream; when the tail is a partial header (1 to
20 bytes), the scan does NOT stop cleanly — recovery returns an error,
because io.ReadFull reports io.ErrUnexpectedEOF rather than io.EOF there. -/
theorem C3_truncated_tail (chunks : List Bytes) (t : Bytes)
    (hwf : ∀ c ∈ chunks, WFChunk 21 c) :
    ((21 ≤ t.length ∧ t.length < 21 + readLE32 t 12 + readLE32 t 16) →
      scanLog 21 (chunks.join ++ t) = scanLog 21 chunks.join ∧
      ∃ dir n, scanLog 21 chunks.join = .ok (dir, n)) ∧
    ((1 ≤ t.length ∧ t.length < 21) →
      scanLog 21 (chunks.join ++ t) = .error ()) := by
  have hmain := scanAux_chunks chunks t 0 [] [] 0 hwf
  have hmain0 := scanAux_chunks chunks [] 0 [] [] 0 hwf
  rw [List.append_nil] at hmain0
  constructor
  · intro ⟨ht1, ht2⟩
    have heof := readNextRecord_eof_of_short_body t ht1 ht2
    have hleft : scanLog 21 (chunks.join ++ t) =
        .ok ((replayChunks chunks ([], [], 0)).2.1, (replayChunks chunks ([], [], 0)).2.2) := by
      rw [scanLog, hmain, scanAux_stop_eof _ _ _ _ _ _ heof]
    have hright : scanLog 21 chunks.join =
        .ok ((replayChunks chunks ([], [], 0)).2.1, (replayChunks chunks ([], [], 0)).2.2) := by
      rw [scanLog, hmain0, scanAux_stop_eof _ _ _ _ _ _ readNextRecord_nil]
    rw [hleft, hright]
    exact ⟨rfl, _, _, rfl⟩
  · intro ⟨ht1, ht2⟩
    have hfail := readNextRecord_fail_of_partial_header t ht1 ht2
    rw [scanLog, hmain, scanAux_stop_fail _ _ _ _ _ _ hfail]

/-- Counterexample for C3 as stated: a wellformed committed stream followed by
a 3-byte tail (fewer bytes than a full header remain) makes recovery fail
with an error, where the claim requires a clean, errorless stop; the same
stream without the tail scans fine. -/
theorem C3_counterexample :
    scanLog 21 (c3Chunk1 ++ c3Chunk2 ++ [0, 0, 0]) = .error () ∧
    (scanLog 21 (c3Chunk1 ++ c3Chunk2)).isOk = true := by
  decide

/-- Witness for C3 (amended) at a concrete stream and tails. -/
theorem C3_witness :
    (∀ c ∈ [c3Chunk1, c3Chunk2], WFChunk 21 c) ∧
    (((21 ≤ c3Tail.length ∧
        c3Tail.length < 21 + readLE32 c3Tail 12 + readLE32 c3Tail 16) →
      scanLog 21 ([c3Chunk1, c3Chunk2].join ++ c3Tail) =
        scanLog 21 [c3Chunk1, c3Chunk2].join ∧
      ∃ dir n, scanLog 21 [c3Chunk1, c3Chunk2].join = .ok (dir, n)) ∧
    ((1 ≤ c3Tail.length ∧ c3Tail.length < 21) →
      scanLog 21 ([c3Chunk1, c3Chunk2].join ++ c3Tail) = .error ())) :=
  ⟨by decide, C3_truncated_tail [c3Chunk1, c3Chunk2] c3Tail (by decide)⟩

/-- C1 is violated by the code: recovering the two-record log yields entries
whose offsets are all 0 — record "b" really starts at byte 44 — so Get("b")
on the recovered engine reads bytes [0, 24) (record "a" plus one byte of its
commit marker) and fails the CRC check instead of returning "22". -/
theorem C1_recovered_offsets_are_zero :
    scanLog 21 c1Log = .ok (c1Dir, 2) ∧
    kdLoad c1Dir [98] = some ⟨0, 24, 0⟩ ∧
    (c1Log.drop 44).take 24 = encode 21 (putRecord 0 [98] [50, 50]) ∧
    (44 : Nat) ≠ 0 ∧
    (engineGet testCfg 0 [98] ⟨c1Dir, newFile 0 c1Log⟩).1 =
      .error (.decodeFail .checksumMismatch) := by
  decide

theorem lookup_filter_ne (d : KeyDir) (k k2 : Bytes) (h : k2 ≠ k) :
    (d.filter (fun p => p.1 != k)).lookup k2 = d.lookup k2 := by
  induction d with
  | nil => rfl
  | cons p t ih =>
      rw [List.filter_cons]
      by_cases hpk : p.1 = k
      · rw [if_neg (by simp [hpk])]
        rw [ih, List.lookup_cons]
        have : (k2 == p.1) = false := beq_eq_false_iff_ne.mpr (by rw [hpk]; exact h)
        rw [this]
      · rw [if_pos (by simp [hpk])]
        rw [List.lookup_cons, List.lookup_cons]
        by_cases hk2 : k2 = p.1
        · rw [show (k2 == p.1) = true from beq_iff_eq.mpr hk2]
        · rw [show (k2 == p.1) = false from beq_eq_false_iff_ne.mpr hk2]
          exact ih

theorem kdLoad_store_other (d : KeyDir) (k k2 : Bytes) (e : KeyEntry) (h : k2 ≠ k) :
    kdLoad (kdStore d k e) k2 = kdLoad d k2 := by
  unfold kdLoad kdStore
  rw [List.lookup_cons]
  rw [show (k2 == k) = false from beq_eq_false_iff_ne.mpr h]
  exact lookup_filter_ne d k k2 h

theorem kdLoad_delete_other (d : KeyDir) (k k2 : Bytes) (h : k2 ≠ k) :
    kdLoad (kdDelete d k) k2 = kdLoad d k2 :=
  lookup_filter_ne d k k2 h

theorem filter_eq_of_filter_ne (d : KeyDir) (k k2 : Bytes) (h : k2 ≠ k) :
    (d.filter (fun p => p.1 != k)).filter (fun p => p.1 == k2) =
      d.filter (fun p => p.1 == k2) := by
  rw [List.filter_filter]
  apply List.filter_congr
  intro p _
  by_cases hp : p.1 = k2
  · have : (p.1 != k) = true := by
      simp [bne]
      rw [hp]
      exact h
    simp [hp, this]
    exact h
  · simp [hp]

theorem countKey_store_self (d : KeyDir) (k : Bytes) (e : KeyEntry) :
    countKey (kdStore d k e) k = 1 := by
  unfold countKey kdStore
  rw [List.filter_cons, if_pos (by simp)]
  rw [List.filter_filter]
  have : (d.filter fun p => (p.1 == k) && (p.1 != k)) = [] := by
    apply List.filter_eq_nil.mpr
    intro p _
    by_cases hp : p.1 = k
    · simp [hp]
    · simp [hp]
  rw [this]
  rfl

theorem countKey_store_other (d : KeyDir) (k k2 : Bytes) (e : KeyEntry) (h : k2 ≠ k) :
    countKey (kdStore d k e) k2 = countKey d k2 := by
  unfold countKey kdStore
  rw [List.filter_cons, if_neg (by simp; exact Ne.symm h)]
  rw [filter_eq_of_filter_ne d k k2 h]

theorem countKey_delete_self (d : KeyDir) (k : Bytes) :
    countKey (kdDelete d k) k = 0 := by
  unfold countKey kdDelete
  rw [List.filter_filter]
  have : (d.filter fun p => (p.1 == k) && (p.1 != k)) = [] := by
    apply List.filter_eq_nil.mpr
    intro p _
    by_cases hp : p.1 = k
    · simp [hp]
    · simp [hp]
  rw [this]
  rfl

theorem countKey_delete_other (d : KeyDir) (k k2 : Bytes) (h : k2 ≠ k) :
    countKey (kdDelete d k) k2 = countKey d k2 :=
  congrArg List.length (filter_eq_of_filter_ne d k k2 h)

theorem slice_append_left (l t : Bytes) (off size : Nat) (h : off + size ≤ l.length) :
    ((l ++ t).drop off).take size = (l.drop off).take size := by
  apply List.ext_getElem?
  intro j
  rw [List.getElem?_take, List.getElem?_take]
  by_cases hj : j < size
  · rw [if_pos hj, if_pos hj, List.getElem?_drop, List.getElem?_drop,
      List.getElem?_append]
    rw [if_pos (by omega)]
  · rw [if_neg hj, if_neg hj]

theorem inv_init (cfg : Config) (hbatch : cfg.batchSize ≤ defaultBufSize) :
    Inv cfg initState (fun _ => none) := by
  refine ⟨rfl, hbatch, ?_, ?_, ?_⟩
  · intro k _
    rfl
  · intro k v h
    cases h
  · intro k
    rfl

theorem get_of_inv (cfg : Config) (s : EngState) (m : Bytes → Option Bytes)
    (hInv : Inv cfg s m) (hhs : cfg.headerSize = 21) (k v : Bytes) (now : Nat)
    (hm : m k = some v) : (engineGet cfg now k s).1 = .ok v := by
  obtain ⟨hbuf, _, _, hsome, _⟩ := hInv
  obtain ⟨e, hload, r, hwf, hflag, hkey, hval, hks, hvs, hsize, hbound, hslice⟩ :=
    hsome k v hm
  have hsz : 0 < e.size := by omega
  have hflush : shouldFlushBeforeRead s.file e.offset = false := by
    unfold shouldFlushBeforeRead
    rw [hbuf]
    simp
  have hread : fileReadAt s.file (Int.ofNat e.offset) e.size = .ok (encode 21 r) := by
    simp only [fileReadAt]
    rw [if_neg (by exact not_lt.mpr (Int.ofNat_nonneg _))]
    have htoNat : (Int.ofNat e.offset).toNat = e.offset := rfl
    rw [htoNat, hslice]
    have hlen2 : (encode 21 r).length = e.size := by
      rw [length_encode 21 r (by norm_num), hkey, hval]
      omega
    rw [hlen2, Nat.sub_self]
    simp
  have hdec : decode cfg.headerSize (encode 21 r) =
      .ok ⟨checksumIEEE (recordBody 21 r), r.timestamp, r.keysize, r.valuesize, r.flag,
        r.key, r.value⟩ := by
    rw [hhs]
    exact decode_encode r hwf (by rw [hkey]; exact hks) (by rw [hval]; exact hvs)
  have hnotts : (r.flag = FlagTombstone) = False := by
    rw [hflag]
    simp [FlagNormal, FlagTombstone]
  simp only [engineGet, hload, hflush, Bool.false_eq_true, if_false, hread, hdec,
    hnotts, hval]

theorem putRecord_WF (t : Nat) (k v : Bytes) (ht : t < 2 ^ 64)
    (hkb : ∀ b ∈ k, b < 256) (hvb : ∀ b ∈ v, b < 256) : RecordWF (putRecord t k v) :=
  ⟨ht, Nat.mod_lt _ (by norm_num), Nat.mod_lt _ (by norm_num), by norm_num [putRecord,
    FlagNormal], hkb, hvb⟩

theorem inv_put (cfg : Config) (s : EngState) (m : Bytes → Option Bytes)
    (k v : Bytes) (t : Nat) (m2 : Bytes → Option Bytes)
    (hInv : Inv cfg s m) (hhs : cfg.headerSize = 21) (hva : ValidOp (.put k v t))
    (hm2 : ∀ k2, m2 k2 = if k = k2 then some v else m k2) :
    Inv cfg (execOp cfg s (.put k v t)) m2 := by
  obtain ⟨hbuf, hcap, hnone, hsome, hcount⟩ := hInv
  obtain ⟨hk32, hv32, hsum, ht64, hkb, hvb⟩ := hva
  obtain ⟨fs2, happ, hjoin, hbufcap, hflush⟩ := fileAppend_ok cfg t
    (encode 21 (putRecord t k v) ++ encode 21 (commitRecord t)) s.file
  obtain ⟨hbuf2, hdisk2⟩ := hflush hcap
  have hexec : execOp cfg s (.put k v t) =
      ⟨kdStore s.keyDir k ⟨0,
        (v.length % 2 ^ 32 + k.length % 2 ^ 32 + cfg.headerSize) % 2 ^ 32,
        s.file.disk.length + s.file.buf.length⟩, fs2⟩ := by
    simp only [execOp, enginePut, hhs, happ]
  have hsizeeq : (v.length % 2 ^ 32 + k.length % 2 ^ 32 + cfg.headerSize) % 2 ^ 32 =
      21 + k.length + v.length := by
    rw [hhs, Nat.mod_eq_of_lt hk32, Nat.mod_eq_of_lt hv32, Nat.mod_eq_of_lt (by omega)]
    omega
  have hdisk2e : fs2.disk = s.file.disk ++
      (encode 21 (putRecord t k v) ++ encode 21 (commitRecord t)) := by
    rw [hdisk2, hbuf]
    simp
  have hlenA : (encode 21 (putRecord t k v)).length = 21 + k.length + v.length := by
    rw [length_encode 21 _ (by norm_num)]
    simp [putRecord]
  have hlenC : (encode 21 (commitRecord t)).length = 21 := by
    rw [length_encode 21 _ (by norm_num)]
    simp [commitRecord]
  rw [hexec]
  refine ⟨hbuf2, by rw [hbufcap]; exact hcap, ?_, ?_, ?_⟩
  · intro k2 h2
    rw [hm2 k2] at h2
    by_cases hkk : k = k2
    · rw [if_pos hkk] at h2
      cases h2
    · rw [if_neg hkk] at h2
      rw [kdLoad_store_other _ _ _ _ (fun h => hkk h.symm)]
      exact hnone k2 h2
  · intro k2 v2 h2
    rw [hm2 k2] at h2
    by_cases hkk : k = k2
    · rw [if_pos hkk] at h2
      cases h2
      subst hkk
      refine ⟨_, kdLoad_store_self _ _ _, putRecord t k v,
        putRecord_WF t k v ht64 hkb hvb, rfl, rfl, rfl, ?_, ?_, hsizeeq, ?_, ?_⟩
      · exact Nat.mod_eq_of_lt hk32
      · exact Nat.mod_eq_of_lt hv32
      · rw [hsizeeq, hdisk2e, hbuf]
        simp only [List.length_nil, Nat.add_zero, List.length_append]
        omega
      · rw [hsizeeq, hdisk2e, hbuf]
        simp only [List.length_nil, Nat.add_zero]
        rw [drop_append_len _ _ _ rfl]
        rw [take_append_len _ _ _ (by rw [hlenA])]
    · rw [if_neg hkk] at h2
      obtain ⟨e2, hload2, r2, hr2wf, hr2f, hr2k, hr2v, hr2ks, hr2vs, hr2sz, hr2b,
        hr2slice⟩ := hsome k2 v2 h2
      refine ⟨e2, ?_, r2, hr2wf, hr2f, hr2k, hr2v, hr2ks, hr2vs, hr2sz, ?_, ?_⟩
      · rw [kdLoad_store_other _ _ _ _ (fun h => hkk h.symm)]
        exact hload2
      · rw [hdisk2e]
        simp only [List.length_append]
        omega
      · rw [hdisk2e, slice_append_left _ _ _ _ hr2b]
        exact hr2slice
  · intro k2
    rw [hm2 k2]
    by_cases hkk : k = k2
    · subst hkk
      rw [countKey_store_self]
      simp
    · rw [if_neg hkk, countKey_store_other _ _ _ _ (fun h => hkk h.symm)]
      exact hcount k2

theorem inv_del (cfg : Config) (s : EngState) (m : Bytes → Option Bytes)
    (k : Bytes) (t : Nat) (m2 : Bytes → Option Bytes)
    (hInv : Inv cfg s m) (hhs : cfg.headerSize = 21)
    (hm2 : ∀ k2, m2 k2 = if k = k2 then none else m k2) :
    Inv cfg (execOp cfg s (.del k t)) m2 := by
  obtain ⟨hbuf, hcap, hnone, hsome, hcount⟩ := hInv
  obtain ⟨fs2, happ, hjoin, hbufcap, hflush⟩ := fileAppend_ok cfg t
    (encode 21 (tombRecord t k)) s.file
  obtain ⟨hbuf2, hdisk2⟩ := hflush hcap
  have hexec : execOp cfg s (.del k t) = ⟨kdDelete s.keyDir k, fs2⟩ := by
    simp only [execOp, engineDelete, hhs, happ]
  have hdisk2e : fs2.disk = s.file.disk ++ encode 21 (tombRecord t k) := by
    rw [hdisk2, hbuf]
    simp
  rw [hexec]
  refine ⟨hbuf2, by rw [hbufcap]; exact hcap, ?_, ?_, ?_⟩
  · intro k2 h2
    rw [hm2 k2] at h2
    by_cases hkk : k = k2
    · subst hkk
      exact kdLoad_delete_self _ k
    · rw [if_neg hkk] at h2
      rw [kdLoad_delete_other _ _ _ (fun h => hkk h.symm)]
      exact hnone k2 h2
  · intro k2 v2 h2
    rw [hm2 k2] at h2
    by_cases hkk : k = k2
    · rw [if_pos hkk] at h2
      cases h2
    · rw [if_neg hkk] at h2
      obtain ⟨e2, hload2, r2, hr2wf, hr2f, hr2k, hr2v, hr2ks, hr2vs, hr2sz, hr2b,
        hr2slice⟩ := hsome k2 v2 h2
      refine ⟨e2, ?_, r2, hr2wf, hr2f, hr2k, hr2v, hr2ks, hr2vs, hr2sz, ?_, ?_⟩
      · rw [kdLoad_delete_other _ _ _ (fun h => hkk h.symm)]
        exact hload2
      · rw [hdisk2e]
        simp only [List.length_append]
        omega
      · rw [hdisk2e, slice_append_left _ _ _ _ hr2b]
        exact hr2slice
  · intro k2
    rw [hm2 k2]
    by_cases hkk : k = k2
    · subst hkk
      rw [countKey_delete_self]
      simp
    · rw [if_neg hkk, countKey_delete_other _ _ _ (fun h => hkk h.symm)]
      exact hcount k2

theorem specLookup_concat (ops : List Op) (op : Op) (k : Bytes) :
    specLookup (ops ++ [op]) k = match op with
      | .put k2 v _ => if k2 = k then some v else specLookup ops k
      | .del k2 _ => if k2 = k then none else specLookup ops k := by
  unfold specLookup
  rw [List.foldl_append]
  rcases op with ⟨k2, v, t⟩ | ⟨k2, t⟩ <;> rfl

theorem exec_concat (cfg : Config) (s : EngState) (ops : List Op) (op : Op) :
    exec cfg s (ops ++ [op]) = execOp cfg (exec cfg s ops) op := by
  unfold exec
  rw [List.foldl_append]
  rfl

theorem inv_exec (cfg : Config) (ops : List Op) (hhs : cfg.headerSize = 21)
    (hbatch : cfg.batchSize ≤ defaultBufSize) (hops : ∀ op ∈ ops, ValidOp op) :
    Inv cfg (exec cfg initState ops) (specLookup ops) := by
  induction ops using List.reverseRecOn with
  | nil => exact inv_init cfg hbatch
  | append_singleton ops op ih =>
      have hops2 : ∀ op2 ∈ ops, ValidOp op2 := fun op2 h =>
        hops op2 (List.mem_append_left _ h)
      have hopv : ValidOp op := hops op (List.mem_append_right _ (List.mem_singleton_self _))
      rw [exec_concat]
      rcases op with ⟨k, v, t⟩ | ⟨k, t⟩
      · exact inv_put cfg _ (specLookup ops) k v t _ (ih hops2) hhs hopv
          (fun k2 => by rw [specLookup_concat])
      · exact inv_del cfg _ (specLookup ops) k t _ (ih hops2) hhs
          (fun k2 => by rw [specLookup_concat])

/-- C8 (amended): for configurations whose BATCH_SIZE is at most the 4096-byte
writer capacity (so every Append auto-flushes, as in the shipped test
configuration), after any sequence of successful Puts/Deletes whose last
write to k is Put(k,v), Get(k) returns v and the directory holds exactly one
entry for k. -/
theorem C8_put_get (cfg : Config) (ops : List Op) (k v : Bytes) (now : Nat)
    (hhs : cfg.headerSize = 21) (hbatch : cfg.batchSize ≤ defaultBufSize)
    (hops : ∀ op ∈ ops, ValidOp op) (hlast : specLookup ops k = some v) :
    (engineGet cfg now k (exec cfg initState ops)).1 = .ok v ∧
    countKey (exec cfg initState ops).keyDir k = 1 := by
  have hInv := inv_exec cfg ops hhs hbatch hops
  constructor
  · exact get_of_inv cfg _ _ hInv hhs k v now hlast
  · have hc := hInv.2.2.2.2 k
    rw [hlast] at hc
    simpa using hc

/-- Witness for C8 (amended): two overwriting Puts then a Get. -/
theorem C8_witness :
    (testCfg.headerSize = 21 ∧ testCfg.batchSize ≤ defaultBufSize ∧
      (∀ op ∈ [Op.put [107] [118] 0, Op.put [107] [98] 0], ValidOp op) ∧
      specLookup [Op.put [107] [118] 0, Op.put [107] [98] 0] [107] = some [98]) ∧
    ((engineGet testCfg 0 [107] (exec testCfg initState
        [Op.put [107] [118] 0, Op.put [107] [98] 0])).1 = .ok [98] ∧
      countKey (exec testCfg initState
        [Op.put [107] [118] 0, Op.put [107] [98] 0]).keyDir [107] = 1) :=
  ⟨⟨by decide, by decide, by decide, by decide⟩,
    C8_put_get testCfg [Op.put [107] [118] 0, Op.put [107] [98] 0] [107] [98] 0
      (by decide) (by decide) (by decide) (by decide)⟩

/-- Counterexample for C8 as stated: with BATCH_SIZE 8192 (larger than the
4096-byte bufio capacity), two successful Puts to the same key leave the
latest record split between the flushed file and the write buffer;
ShouldFlushBeforeRead misses it (the record's start offset lies below the
flushed size), so Get reads a half-written record padded with zeros and
fails the CRC check instead of returning the most recent value. -/
theorem bufWriteAux_fits (cap fuel : Nat) (disk buf p : Bytes)
    (h : p.length ≤ cap - buf.length) :
    bufWriteAux cap (fuel + 1) disk buf p = (disk, buf ++ p) := by
  simp only [bufWriteAux, if_pos h]

theorem bufWriteAux_spill (cap fuel : Nat) (disk buf p : Bytes)
    (h1 : ¬ p.length ≤ cap - buf.length) (h2 : ¬ buf.length = 0) :
    bufWriteAux cap (fuel + 1) disk buf p =
      bufWriteAux cap fuel (disk ++ (buf ++ p.take (cap - buf.length))) []
        (p.drop (cap - buf.length)) := by
  simp only [bufWriteAux, if_neg h1, if_neg h2]

theorem fileAppend_noflush (cfg : Config) (now : Nat) (data : Bytes) (fs : FileState)
    (hfit : data.length ≤ fs.bufCap - fs.buf.length)
    (hcond : ¬ (cfg.batchSize ≤ fs.bufCap ∨ cfg.syncInterval ≤ now - fs.lastSync)) :
    fileAppend cfg now true data fs = .ok (fs.disk.length + fs.buf.length,
      ⟨fs.disk, fs.buf ++ data, fs.bufCap, fs.lastSync⟩) := by
  unfold fileAppend
  simp only [Bool.not_true, Bool.false_eq_true, if_false]
  unfold bufWrite
  rw [bufWriteAux_fits _ _ _ _ _ hfit]
  rw [if_neg hcond]

theorem fileAppend_spill_noflush (cfg : Config) (now : Nat) (data : Bytes)
    (fs : FileState) (h1 : ¬ data.length ≤ fs.bufCap - fs.buf.length)
    (h2 : ¬ fs.buf.length = 0)
    (hfit2 : (data.drop (fs.bufCap - fs.buf.length)).length ≤ fs.bufCap)
    (hcond : ¬ (cfg.batchSize ≤ fs.bufCap ∨ cfg.syncInterval ≤ now - fs.lastSync)) :
    fileAppend cfg now true data fs = .ok (fs.disk.length + fs.buf.length,
      ⟨fs.disk ++ (fs.buf ++ data.take (fs.bufCap - fs.buf.length)),
        data.drop (fs.bufCap - fs.buf.length), fs.bufCap, fs.lastSync⟩) := by
  unfold fileAppend
  simp only [Bool.not_true, Bool.false_eq_true, if_false]
  unfold bufWrite
  rw [bufWriteAux_spill _ _ _ _ _ h1 h2]
  obtain ⟨m, hm⟩ : ∃ m, fs.buf.length = m + 1 := ⟨fs.buf.length - 1, by omega⟩
  rw [hm]
  have hfl : data.length + (m + 1) = (data.length + m) + 1 := by omega
  have hfit3 : (data.drop (fs.bufCap - fs.buf.length)).length ≤
      fs.bufCap - ([] : Bytes).length := by
    simp only [List.length_nil, Nat.sub_zero]
    exact hfit2
  rw [hm] at hfit3
  rw [hfl, bufWriteAux_fits _ _ _ _ _ hfit3]
  rw [if_neg hcond]
  simp [← hm]

theorem C8_counterexample :
    (enginePut c8Cfg 0 0 0 true [107] c8V1 ⟨[], newFile 0 []⟩).1 = .ok () ∧
    (enginePut c8Cfg 0 0 0 true [107] c8V2
      (enginePut c8Cfg 0 0 0 true [107] c8V1 ⟨[], newFile 0 []⟩).2).1 = .ok () ∧
    (engineGet c8Cfg 0 [107] c8S2).1 = .error (.decodeFail .checksumMismatch) := by
  have hA : (encode 21 (putRecord 0 [107] c8V1)).length = 4072 := by
    rw [length_encode 21 _ (by norm_num)]
    simp only [putRecord, c8V1, List.length_replicate, List.length_cons, List.length_nil]
  have hC : (encode 21 (commitRecord 0)).length = 21 := by
    rw [length_encode 21 _ (by norm_num)]
    simp only [commitRecord, List.length_nil]
  have hB : (encode 21 (putRecord 0 [107] c8V2)).length = 32 := by
    rw [length_encode 21 _ (by norm_num)]
    simp only [putRecord, c8V2, List.length_cons, List.length_nil]
  have hp1 : (encode 21 (putRecord 0 [107] c8V1) ++ encode 21 (commitRecord 0)).length =
      4093 := by
    rw [List.length_append, hA, hC]
  have hp2 : (encode 21 (putRecord 0 [107] c8V2) ++ encode 21 (commitRecord 0)).length =
      53 := by
    rw [List.length_append, hB, hC]
  have hput1 : enginePut c8Cfg 0 0 0 true [107] c8V1 ⟨[], newFile 0 []⟩ =
      (.ok (), ⟨kdStore [] [107] ⟨0, 4072, 0⟩,
        ⟨[], encode 21 (putRecord 0 [107] c8V1) ++ encode 21 (commitRecord 0),
          4096, 0⟩⟩) := by
    simp only [enginePut, c8Cfg]
    rw [fileAppend_noflush _ _ _ _ (by simp [newFile, defaultBufSize, hp1])
      (by simp [newFile, defaultBufSize])]
    simp only [newFile, defaultBufSize, List.length_nil, List.nil_append, Nat.add_zero]
    norm_num [c8V1]
  have hc1 : ¬ ((encode 21 (putRecord 0 [107] c8V2) ++ encode 21 (commitRecord 0)).length ≤
      (⟨[], encode 21 (putRecord 0 [107] c8V1) ++ encode 21 (commitRecord 0), 4096, 0⟩ :
        FileState).bufCap -
      (⟨[], encode 21 (putRecord 0 [107] c8V1) ++ encode 21 (commitRecord 0), 4096, 0⟩ :
        FileState).buf.length) := by
    simp only [hp1, hp2]
    omega
  have hc2 : ¬ ((⟨[], encode 21 (putRecord 0 [107] c8V1) ++ encode 21 (commitRecord 0),
      4096, 0⟩ : FileState).buf.length = 0) := by
    simp only [hp1]
    omega
  have hc3 : ((encode 21 (putRecord 0 [107] c8V2) ++ encode 21 (commitRecord 0)).drop
      ((⟨[], encode 21 (putRecord 0 [107] c8V1) ++ encode 21 (commitRecord 0), 4096, 0⟩ :
        FileState).bufCap -
       (⟨[], encode 21 (putRecord 0 [107] c8V1) ++ encode 21 (commitRecord 0), 4096, 0⟩ :
        FileState).buf.length)).length ≤
      (⟨[], encode 21 (putRecord 0 [107] c8V1) ++ encode 21 (commitRecord 0), 4096, 0⟩ :
        FileState).bufCap := by
    simp only [List.length_drop, hp1, hp2]
    omega
  have hput2 : enginePut c8Cfg 0 0 0 true [107] c8V2
      ⟨kdStore [] [107] ⟨0, 4072, 0⟩,
        ⟨[], encode 21 (putRecord 0 [107] c8V1) ++ encode 21 (commitRecord 0), 4096, 0⟩⟩ =
      (.ok (), ⟨kdStore (kdStore [] [107] ⟨0, 4072, 0⟩) [107] ⟨0, 32, 4093⟩,
        ⟨(encode 21 (putRecord 0 [107] c8V1) ++ encode 21 (commitRecord 0)) ++
          (encode 21 (putRecord 0 [107] c8V2) ++ encode 21 (commitRecord 0)).take 3,
         (encode 21 (putRecord 0 [107] c8V2) ++ encode 21 (commitRecord 0)).drop 3,
         4096, 0⟩⟩) := by
    simp only [enginePut, c8Cfg]
    rw [fileAppend_spill_noflush _ _ _ _ hc1 hc2 hc3 (by norm_num)]
    simp only [hp1]
    norm_num [c8V2]
  have hs2 : c8S2 = ⟨kdStore (kdStore [] [107] ⟨0, 4072, 0⟩) [107] ⟨0, 32, 4093⟩,
      ⟨(encode 21 (putRecord 0 [107] c8V1) ++ encode 21 (commitRecord 0)) ++
        (encode 21 (putRecord 0 [107] c8V2) ++ encode 21 (commitRecord 0)).take 3,
       (encode 21 (putRecord 0 [107] c8V2) ++ encode 21 (commitRecord 0)).drop 3,
       4096, 0⟩⟩ := by
    unfold c8S2
    rw [hput1]
    rw [show ((Except.ok () : Except EngErr Unit), (⟨kdStore [] [107] ⟨0, 4072, 0⟩,
      ⟨[], encode 21 (putRecord 0 [107] c8V1) ++ encode 21 (commitRecord 0), 4096, 0⟩⟩ :
      EngState)).2 = (⟨kdStore [] [107] ⟨0, 4072, 0⟩,
      ⟨[], encode 21 (putRecord 0 [107] c8V1) ++ encode 21 (commitRecord 0), 4096, 0⟩⟩ :
      EngState) from rfl]
    rw [hput2]
  have htake3 : (encode 21 (putRecord 0 [107] c8V2) ++ encode 21 (commitRecord 0)).take 3 =
      (encode 21 (putRecord 0 [107] c8V2)).take 3 :=
    List.take_append_of_le_length (by rw [hB]; omega)
  have hflush2 : shouldFlushBeforeRead
      ⟨(encode 21 (putRecord 0 [107] c8V1) ++ encode 21 (commitRecord 0)) ++
        (encode 21 (putRecord 0 [107] c8V2) ++ encode 21 (commitRecord 0)).take 3,
       (encode 21 (putRecord 0 [107] c8V2) ++ encode 21 (commitRecord 0)).drop 3,
       4096, 0⟩ 4093 = false := by
    unfold shouldFlushBeforeRead
    simp only [List.length_append, List.length_take, List.length_drop, hp1, hp2]
    simp
  have hread2 : fileReadAt
      ⟨(encode 21 (putRecord 0 [107] c8V1) ++ encode 21 (commitRecord 0)) ++
        (encode 21 (putRecord 0 [107] c8V2) ++ encode 21 (commitRecord 0)).take 3,
       (encode 21 (putRecord 0 [107] c8V2) ++ encode 21 (commitRecord 0)).drop 3,
       4096, 0⟩ (Int.ofNat 4093) 32 =
      .ok ((encode 21 (putRecord 0 [107] c8V2)).take 3 ++ List.replicate 29 0) := by
    simp only [fileReadAt]
    rw [if_neg (by exact not_lt.mpr (Int.ofNat_nonneg _))]
    rw [show (Int.ofNat 4093).toNat = 4093 from rfl]
    rw [drop_append_len _ _ _ hp1, htake3]
    rw [List.take_take]
    rw [show (32 : Nat) ⊓ 3 = 3 from rfl]
    simp [List.length_take, hB]
  have hdecfail : decode 21 ((encode 21 (putRecord 0 [107] c8V2)).take 3 ++
      List.replicate 29 0) = .error .checksumMismatch := by
    decide
  refine ⟨by rw [hput1], ?_, ?_⟩
  · rw [hput1]
    rw [show ((Except.ok () : Except EngErr Unit), (⟨kdStore [] [107] ⟨0, 4072, 0⟩,
      ⟨[], encode 21 (putRecord 0 [107] c8V1) ++ encode 21 (commitRecord 0), 4096, 0⟩⟩ :
      EngState)).2 = (⟨kdStore [] [107] ⟨0, 4072, 0⟩,
      ⟨[], encode 21 (putRecord 0 [107] c8V1) ++ encode 21 (commitRecord 0), 4096, 0⟩⟩ :
      EngState) from rfl]
    rw [hput2]
  · rw [hs2]
    have hload := kdLoad_store_self (kdStore [] [107] ⟨0, 4072, 0⟩) [107] ⟨0, 32, 4093⟩
    simp only [engineGet, c8Cfg, hload, hflush2, Bool.false_eq_true, if_false, hread2,
      hdecfail]

end AetherKV
